import Mathlib

/-!
Verification of the modelwarehouse core: identity hashing (`utils.produce_hash`),
the record field-access layer (`structures.DataObject` / `Model` / `ModelMeta` /
`Project`), the query-filter parser (`utils.resolve_search`), and the `Depot`
transactional CRUD facade (`controller.py`).

Modelling conventions:
* Python literal values are the inductive `PyVal` (strings, ints, bools, naive
  timestamps, tuples, `None`, and opaque non-literal objects carried with their
  `sys.getsizeof` size).  Floats are outside the modelled value domain.
* The MD5 digest (`hashlib.md5(...).digest().hex()` read as a base-16 integer)
  is an external library; it enters the development as a parameter
  `md5 : String → Nat`.  Likewise `infer_obj_module` (runtime module
  introspection) is a parameter `il : PyVal → String` and `os.getlogin()` is a
  parameter `lg : String`.  All theorems hold for every choice of these.
* Record attribute sets model the data fields: the declared dataclass fields
  plus, for `ModelMeta`, the dynamically `setattr`-ed keys.  Methods and
  properties reachable through Python's `hasattr` are outside the field model.
* Python mutation is modelled by explicit state passing.  A `Depot` operation
  body is a function `St → Except St St`: `.ok s'` is a normal return with new
  state `s'`, `.error c` is a raised exception where `c` is the state at the
  last ZODB commit point (what `cancel_commit` rolls back to).  The
  `safe_transaction` wrapper is `runWrap`, which commits on success and aborts
  (returns the carried commit point) on error, re-raising nothing — so every
  wrapped operation is a total function `St → St`.
-/

/-- A naive Python `datetime`/`pandas.Timestamp` value, by components. -/
structure PyDateTime where
  year : Nat
  month : Nat
  day : Nat
  hour : Nat
  minute : Nat
  second : Nat
  microsecond : Nat
deriving DecidableEq, Repr

mutual
/-- Python literal values as stored in records and handled by
`utils._json_default`.  `obj n` is an opaque non-literal object whose
`sys.getsizeof` is `n`. -/
inductive PyVal where
  | none : PyVal
  | bool : Bool → PyVal
  | int : Int → PyVal
  | str : String → PyVal
  | ts : PyDateTime → PyVal
  | tuple : PyTuple → PyVal
  | obj : Nat → PyVal
deriving DecidableEq, Repr

/-- The elements of a Python tuple value. -/
inductive PyTuple where
  | nil : PyTuple
  | cons : PyVal → PyTuple → PyTuple
deriving DecidableEq, Repr
end

/-- Build a tuple value from a Lean list of elements. -/
def PyTuple.ofList : List PyVal → PyTuple
  | [] => .nil
  | x :: xs => .cons x (PyTuple.ofList xs)

/-- Abbreviation for a tuple `PyVal` given its elements as a list. -/
def PyVal.tup (xs : List PyVal) : PyVal := .tuple (PyTuple.ofList xs)

/-- Left-pad a decimal rendering with zeros to width `w`. -/
def padZero (w : Nat) (s : String) : String :=
  if w ≤ s.length then s else String.mk (List.replicate (w - s.length) '0') ++ s

/-- `datetime.isoformat(timespec="microseconds")` for a naive timestamp. -/
def isoMicro (d : PyDateTime) : String :=
  padZero 4 (toString d.year) ++ "-" ++ padZero 2 (toString d.month) ++ "-" ++
    padZero 2 (toString d.day) ++ "T" ++ padZero 2 (toString d.hour) ++ ":" ++
    padZero 2 (toString d.minute) ++ ":" ++ padZero 2 (toString d.second) ++ "." ++
    padZero 6 (toString d.microsecond)

/-- One lowercase hex digit. -/
def hexDigit (n : Nat) : Char :=
  if n < 10 then Char.ofNat (48 + n) else Char.ofNat (87 + n)

/-- Four lowercase hex digits, as in Python's `\uXXXX` escapes. -/
def hex4 (n : Nat) : String :=
  String.mk [hexDigit (n / 4096 % 16), hexDigit (n / 256 % 16),
             hexDigit (n / 16 % 16), hexDigit (n % 16)]

/-- `json.dumps` escaping of one character (`ensure_ascii=True` default):
printable ASCII other than quote and backslash passes through, the short
escapes cover the usual controls, everything else becomes `\uXXXX`
(a surrogate pair beyond the BMP). -/
def jsonEscapeChar (c : Char) : String :=
  if c = '"' then "\\\""
  else if c = '\\' then "\\\\"
  else if c.toNat = 8 then "\\b"
  else if c.toNat = 9 then "\\t"
  else if c.toNat = 10 then "\\n"
  else if c.toNat = 12 then "\\f"
  else if c.toNat = 13 then "\\r"
  else if 32 ≤ c.toNat ∧ c.toNat ≤ 126 then String.singleton c
  else if c.toNat ≤ 65535 then "\\u" ++ hex4 c.toNat
  else
    let v := c.toNat - 65536
    "\\u" ++ hex4 (55296 + v / 1024) ++ "\\u" ++ hex4 (56320 + v % 1024)

/-- A JSON string literal for `s`. -/
def jsonQuote (s : String) : String :=
  "\"" ++ String.join (s.toList.map jsonEscapeChar) ++ "\""

mutual
/-- `utils._json_dumps`: `json.dumps(val, default=_json_default)` restricted to
`PyVal`.  Strings and ints serialize natively; Python `None` is `null`; bools
are `true`/`false`; tuples become arrays element-wise (with the default
`", "` separator); `_json_default` maps timestamps to their ISO-8601
microsecond string and any other object to its `sys.getsizeof`. -/
def jsonSerialize : PyVal → String
  | .none => "null"
  | .bool b => if b then "true" else "false"
  | .int n => toString n
  | .str s => jsonQuote s
  | .ts d => jsonQuote (isoMicro d)
  | .tuple xs => "[" ++ jsonSerializeItems xs ++ "]"
  | .obj n => toString n

/-- Elements of a serialized tuple, joined by `", "`. -/
def jsonSerializeItems : PyTuple → String
  | .nil => ""
  | .cons x .nil => jsonSerialize x
  | .cons x (.cons y rest) => jsonSerialize x ++ ", " ++ jsonSerializeItems (.cons y rest)
end

/-- `produce_hash` wraps a non-tuple argument in a 1-tuple before dumping. -/
def wrapTuple : PyVal → PyVal
  | .tuple xs => .tuple xs
  | v => .tuple (.cons v .nil)

/-- `ctypes.c_int32(n).value`: keep the low 32 bits of `n` and reinterpret
them as a two's-complement signed 32-bit integer. -/
def cInt32Val (n : Nat) : Int :=
  let m : Nat := n % 2 ^ 32
  if m < 2 ^ 31 then (m : Int) else (m : Int) - 2 ^ 32

/-- `utils.produce_hash`: canonical-JSON serialize (after 1-tuple wrapping),
digest with MD5 (the parameter `md5` stands for
`int(hashlib.md5(text.encode("utf-8")).digest().hex(), 16)`), then truncate to
a signed 32-bit integer via `ctypes.c_int32`. -/
def produce_hash (md5 : String → Nat) (v : PyVal) : Int :=
  cInt32Val (md5 (jsonSerialize (wrapTuple v)))

/-! ## The record layer (`structures.py`) -/

/-- Replace the value stored at key `k` in an association list (Python
`setattr` on an existing attribute, and `tree[k] = v` with `k` present). -/
def alSet {α β : Type} [DecidableEq α] (l : List (α × β)) (k : α) (v : β) :
    List (α × β) :=
  l.map (fun kv => if kv.1 = k then (k, v) else kv)

/-- `del tree[k]` on an association list. -/
def alErase {α β : Type} [DecidableEq α] (l : List (α × β)) (k : α) :
    List (α × β) :=
  l.filter (fun kv => decide (kv.1 ≠ k))


/-- `ModelMeta`: the instance attribute map of a meta record, insertion
ordered.  The eight declared dataclass fields are present from construction
(class-level defaults); `_parse_input` overlays the input dict. -/
structure ModelMeta where
  attrs : List (String × PyVal)
deriving DecidableEq, Repr

/-- A value returned by record field access (`DataObject.__getitem__`):
either a plain literal, an embedded `ModelMeta`, or a `Project`'s list of
member model ids. -/
inductive FieldVal where
  | py : PyVal → FieldVal
  | meta : ModelMeta → FieldVal
  | ids : List Int → FieldVal
deriving DecidableEq, Repr

/-- `setattr` on an attribute map: overwrite in place if the key exists,
else append. -/
def setAttr (attrs : List (String × PyVal)) (k : String) (v : PyVal) :
    List (String × PyVal) :=
  if (attrs.lookup k).isSome then alSet attrs k v
  else attrs ++ [(k, v)]

/-- The eight declared `ModelMeta` dataclass fields, all defaulting to
`None`. -/
def metaDefaults : List (String × PyVal) :=
  [("model_type", .none), ("learning_type", .none), ("model_library", .none),
   ("dataset", .none), ("objective_func", .none), ("training_accuracy", .none),
   ("test_accuracy", .none), ("comment", .none)]

/-- `ModelMeta.__init__` from a dict: `_parse_input` does `setattr` for each
input key over the declared defaults. -/
def ModelMeta.ofDict (d : List (String × PyVal)) : ModelMeta :=
  ⟨d.foldl (fun a kv => setAttr a kv.1 kv.2) metaDefaults⟩

/-- `Model`: static fields `model_object`, `project_name`, `timestamp`;
dynamic fields `meta_data` and `creator`.  After `__post_init__` the
`meta_data` slot holds a `ModelMeta` (`Sum.inl`); a later
`update_field("meta_data", v)` can replace it with an arbitrary value
(`Sum.inr`), after which the model no longer has an embedded delegate.
`creator` is dynamic and may be re-assigned to any value, hence `PyVal`. -/
structure Model where
  model_object : PyVal
  project_name : String
  meta_data : ModelMeta ⊕ PyVal
  creator : PyVal
  timestamp : PyDateTime
deriving DecidableEq, Repr

/-- `Project`: static field `project_name`; dynamic fields
`project_description`, `models` (the ordered member-id list; `Sum.inr` after
a type-changing `update_field("models", v)`), and `creator`. -/
structure Project where
  project_name : String
  project_description : PyVal
  models : List Int ⊕ PyVal
  creator : PyVal
deriving DecidableEq, Repr

/-- `DataObject._find_data_objects` for a `Model`: the only embedded
`DataObject` is the meta record, when the `meta_data` slot still holds one. -/
def Model.delegate? (m : Model) : Option ModelMeta :=
  match m.meta_data with
  | .inl mm => some mm
  | .inr _ => Option.none

/-- The declared `Model` attribute names, in dataclass order. -/
def modelSelfAttrs : List String :=
  ["model_object", "project_name", "meta_data", "creator", "timestamp"]

/-- `Model._static_fields_`. -/
def modelStaticFields : List String := ["timestamp", "project_name", "model_object"]

/-- `Project._static_fields_`. -/
def projectStaticFields : List String := ["project_name"]

/-- The declared `Project` attribute names. -/
def projectSelfAttrs : List String :=
  ["project_name", "project_description", "models", "creator"]

/-- Field lookup against the `Model` itself (the `(self,)` tail of the
`_filter_data_object` chain). -/
def Model.selfField? (m : Model) (k : String) : Option FieldVal :=
  if k == "model_object" then some (.py m.model_object)
  else if k == "project_name" then some (.py (.str m.project_name))
  else if k == "meta_data" then
    some (match m.meta_data with | .inl mm => .meta mm | .inr v => .py v)
  else if k == "creator" then some (.py m.creator)
  else if k == "timestamp" then some (.py (.ts m.timestamp))
  else Option.none

/-- `DataObject.__getitem__` / `get_field` for a `Model`:
`_filter_data_object` scans `chain(self._find_data_objects(), (self,))`, so
the embedded meta record is consulted FIRST and the model itself only when
the meta lacks the key; `none` is the `AttributeError` (no such field) case.
(`get_field` additionally copies list-valued results; lists are values
here.) -/
def Model.getField? (m : Model) (k : String) : Option FieldVal :=
  match m.delegate? with
  | some mm =>
      match mm.attrs.lookup k with
      | some v => some (.py v)
      | Option.none => m.selfField? k
  | Option.none => m.selfField? k

/-- Assignment against the `Model` itself: the three static fields raise
`AttributeError("... immutable field !")`, the two dynamic ones are set,
anything else raises the no-such-attribute `AttributeError`. -/
def Model.setSelfField (m : Model) (k : String) (v : PyVal) : Except Unit Model :=
  if k == "model_object" then .error ()
  else if k == "project_name" then .error ()
  else if k == "timestamp" then .error ()
  else if k == "meta_data" then .ok { m with meta_data := .inr v }
  else if k == "creator" then .ok { m with creator := v }
  else .error ()

/-- `DataObject.__setitem__` / `update_field` for a `Model`: resolution order
is meta-first (as in `__getitem__`); a key owned by the meta record is set
there with no immutability check (`ModelMeta` declares no
`_static_fields_`). -/
def Model.setField (m : Model) (k : String) (v : PyVal) : Except Unit Model :=
  match m.delegate? with
  | some mm =>
      if (mm.attrs.lookup k).isSome then
        .ok { m with meta_data := .inl ⟨setAttr mm.attrs k v⟩ }
      else m.setSelfField k v
  | Option.none => m.setSelfField k v

/-- `__getitem__` / `get_field` for a `Project` (no embedded `DataObject`,
so resolution is against the project itself only).  The `models` field is
returned as a copied id list while it still holds one. -/
def Project.getField? (p : Project) (k : String) : Option FieldVal :=
  if k == "project_name" then some (.py (.str p.project_name))
  else if k == "project_description" then some (.py p.project_description)
  else if k == "models" then
    some (match p.models with | .inl l => .ids l | .inr v => .py v)
  else if k == "creator" then some (.py p.creator)
  else Option.none

/-- `__setitem__` / `update_field` for a `Project`: `project_name` is the
lone static field. -/
def Project.setField (p : Project) (k : String) (v : PyVal) : Except Unit Project :=
  if k == "project_name" then .error ()
  else if k == "project_description" then .ok { p with project_description := v }
  else if k == "models" then .ok { p with models := .inr v }
  else if k == "creator" then .ok { p with creator := v }
  else .error ()

/-- `Project.add_model`: raise on a duplicate member id, else append.
`.error` also covers a `models` slot no longer holding a list, where the
membership test or `.append` raises. -/
def Project.addModelId (p : Project) (mid : Int) : Except Unit Project :=
  match p.models with
  | .inl l => if mid ∈ l then .error () else .ok { p with models := .inl (l ++ [mid]) }
  | .inr _ => .error ()

/-- `Project.remove_model`: raise on a missing member id, else remove the
first occurrence (Python `list.remove`). -/
def Project.removeModelId (p : Project) (mid : Int) : Except Unit Project :=
  match p.models with
  | .inl l => if mid ∈ l then .ok { p with models := .inl (l.erase mid) } else .error ()
  | .inr _ => .error ()

/-- Resolution restricted to plain-literal results, used for the keys
(`model_object`, `project_name`, `timestamp`) whose value is a `PyVal`
through every resolution path.  The `.none` fallback is unreachable for
those keys. -/
def Model.getPy (m : Model) (k : String) : PyVal :=
  match m.getField? k with
  | some (.py v) => v
  | _ => .none

/-- `Model.id` (`DataObject._eval_hash`): `produce_hash` of the tuple of
`get_field` over the sorted static field names —
`("model_object", "project_name", "timestamp")`. -/
def Model.idOf (md5 : String → Nat) (m : Model) : Int :=
  produce_hash md5 (.tup [m.getPy "model_object", m.getPy "project_name",
                          m.getPy "timestamp"])

/-- `Project.id`: `produce_hash` of the 1-tuple `(project_name,)`. -/
def Project.idOf (md5 : String → Nat) (p : Project) : Int :=
  produce_hash md5 (.tup [.str p.project_name])

/-- `Model.__init__` + `__post_init__` given an already-built `ModelMeta`
(parameters: `il` is `infer_obj_module`, `lg` is `os.getlogin()`):
sets `model_library` on the meta record, then `self.update_field("creator",
os.getlogin())` — which, resolving meta-first, lands on the meta record
instead of the model when the meta carries a `creator` key. -/
def Model.make (il : PyVal → String) (lg : String) (obj : PyVal) (pname : String)
    (mm : ModelMeta) (ts : PyDateTime) : Model :=
  let mm' : ModelMeta := ⟨setAttr mm.attrs "model_library" (.str (il obj))⟩
  let m0 : Model := { model_object := obj, project_name := pname,
                      meta_data := .inl mm', creator := .str "Unknown",
                      timestamp := ts }
  match m0.setField "creator" (.str lg) with
  | .ok m1 => m1
  | .error _ => m0

/-- `Project.__init__` + `__post_init__` (fresh project: empty member
list). -/
def Project.make (lg : String) (name : String) (desc : PyVal) : Project :=
  let p0 : Project := { project_name := name, project_description := desc,
                        models := .inl [], creator := .str "Unknown" }
  match p0.setField "creator" (.str lg) with
  | .ok p1 => p1
  | .error _ => p0

/-! ## The `Depot` facade (`controller.py`)

Only point lookup, checked insert, checked delete and iteration are used by
`Depot` on the two `IOBTree` indexes; key order is irrelevant to every
property proved below, so the trees are modelled as association lists with
`Nodup` keys (maintained as an invariant). -/

/-- The two root indexes: `root["models"]` and `root["projects"]`. -/
structure St where
  models : List (Int × Model)
  projects : List (Int × Project)
deriving DecidableEq, Repr

/-- The empty depot state (fresh `_validate_root_objects`). -/
def stEmpty : St := ⟨[], []⟩

/-- The `safe_transaction` wrapper: run the body; on success the result is
committed; on a raised error the transaction is aborted, rolling the indexes
back to the carried commit point, and nothing is re-raised. -/
def runWrap (body : St → Except St St) (s : St) : St :=
  match body s with
  | .ok s' => s'
  | .error c => c

section DepotOps

variable (md5 : String → Nat) (il : PyVal → String) (lg : String)

/-- Body of `Depot.add_model`.  Raises (rolling back to the entry state) when
the model's project is not in the project index, when the model id is already
in the model index, or when `Project.add_model` raises; otherwise inserts the
model and appends its id to the owning project's member list.  (In the source
the model-index insert precedes `Project.add_model`; on the latter's raise the
abort rolls the insert back, so the net effect is as written here.) -/
def addModelBody (nm : Model) (s : St) : Except St St :=
  let model_id := Model.idOf md5 nm
  let project_id := produce_hash md5 (.str nm.project_name)
  match s.projects.lookup project_id with
  | Option.none => .error s
  | some p =>
      if (s.models.lookup model_id).isSome then .error s
      else
        match p.addModelId model_id with
        | .error _ => .error s
        | .ok p' => .ok ⟨s.models ++ [(model_id, nm)], alSet s.projects project_id p'⟩

/-- `Depot.add_model` (wrapped). -/
def addModel (nm : Model) (s : St) : St := runWrap (addModelBody md5 nm) s

/-- Body of `Depot.remove_model`.  Raises when the id is absent, when the
project derived from the stored model's `get_field("project_name")` is not in
the project index, or when `Project.remove_model` raises; otherwise deletes
the model and removes its id from the project's member list.  (The source
deletes from the model index before touching the project; a raise there is
rolled back, netting to the order written here.) -/
def removeModelBody (model_id : Int) (s : St) : Except St St :=
  match s.models.lookup model_id with
  | Option.none => .error s
  | some m =>
      let project_id := produce_hash md5 (m.getPy "project_name")
      match s.projects.lookup project_id with
      | Option.none => .error s
      | some p =>
          match p.removeModelId model_id with
          | .error _ => .error s
          | .ok p' => .ok ⟨alErase s.models model_id, alSet s.projects project_id p'⟩

/-- `Depot.remove_model` (wrapped). -/
def removeModel (model_id : Int) (s : St) : St := runWrap (removeModelBody md5 model_id) s

/-- Body of `Depot.add_project`: raises when a project with the same identity
(derived purely from the name) is already stored, else inserts. -/
def addProjectBody (p : Project) (s : St) : Except St St :=
  let pid := Project.idOf md5 p
  if (s.projects.lookup pid).isSome then .error s
  else .ok ⟨s.models, s.projects ++ [(pid, p)]⟩

/-- `Depot.add_project` (wrapped). -/
def addProject (p : Project) (s : St) : St := runWrap (addProjectBody md5 p) s

/-- Body of `Depot.update_object_attr`: resolve the id against the model
index first, then the project index; mutate via `update_field`; raise when
the id is in neither index or when `update_field` raises. -/
def updateObjectAttrBody (id : Int) (attr : String) (v : PyVal) (s : St) :
    Except St St :=
  match s.models.lookup id with
  | some m =>
      match m.setField attr v with
      | .ok m' => .ok ⟨alSet s.models id m', s.projects⟩
      | .error _ => .error s
  | Option.none =>
      match s.projects.lookup id with
      | some p =>
          match p.setField attr v with
          | .ok p' => .ok ⟨s.models, alSet s.projects id p'⟩
          | .error _ => .error s
      | Option.none => .error s

/-- `Depot.update_object_attr` (wrapped). -/
def updateObjectAttr (id : Int) (attr : String) (v : PyVal) (s : St) : St :=
  runWrap (updateObjectAttrBody id attr v) s

/-- The tail of `move_model_to_project` after the target name is resolved:
read `model_object` and `meta_data` off the existing model via `get_field`,
construct the new `Model` (raising before any mutation when the `meta_data`
slot no longer holds a `ModelMeta`), then run the two wrapped sub-operations
`add_model` / `remove_model`, each of which commits or aborts on its own. -/
def moveResolved (model_id : Int) (em : Model) (np : String) (ts : PyDateTime)
    (s : St) : Except St St :=
  match em.getField? "meta_data" with
  | some (.meta mm) =>
      match em.getField? "model_object" with
      | some (.py obj) =>
          let newM := Model.make il lg obj np mm ts
          .ok (removeModel md5 model_id (addModel md5 newM s))
      | _ => .error s
  | _ => .error s

/-- `Depot.move_model_to_project` is NOT wrapped in `safe_transaction`: a
raise here propagates to the caller (`.error c` carries the state at the last
commit, which is what remains in the store).  The body looks the model up and
resolves the target to a project name (an `int` target is resolved through
the project index and raises when absent), then proceeds as `moveResolved`.
The constructed model carries the same payload and meta but the target name
and the fresh timestamp `ts`. -/
def moveModelBody (model_id : Int) (tgt : String ⊕ Int) (ts : PyDateTime)
    (s : St) : Except St St :=
  match s.models.lookup model_id with
  | Option.none => .error s
  | some em =>
      match tgt with
      | .inr n =>
          match s.projects.lookup n with
          | Option.none => .error s
          | some q => moveResolved md5 il lg model_id em q.project_name ts s
      | .inl name => moveResolved md5 il lg model_id em name ts s

/-- `move_model_to_project` as a state transformer (the state left behind
whether or not an exception escaped to the caller). -/
def moveModel (model_id : Int) (tgt : String ⊕ Int) (ts : PyDateTime) (s : St) : St :=
  runWrap (moveModelBody md5 il lg model_id tgt ts) s

/-- Python truthiness of the `move_to_new_project` argument
(`if move_to_new_project:`): an absent value, the empty string and the
integer `0` are falsy. -/
def sumTruthy : String ⊕ Int → Bool
  | .inl s => s ≠ ""
  | .inr n => n ≠ 0

/-- The member loop of `Depot.remove_project`: for each member id of the
snapshot taken at entry, either move it to the target (when truthy) or
remove it outright.  The inner wrapped operations never raise; a raise out
of `move_model_to_project` aborts the whole `remove_project` at the commit
point it carries.  `tsAt i` is the wall clock at the `i`-th inner `Model`
construction. -/
def rpLoop (mt : Option (String ⊕ Int)) (tsAt : Nat → PyDateTime) :
    List Int → Nat → St → Except St St
  | [], _, cur => .ok cur
  | mid :: rest, i, cur =>
      match mt with
      | some tgt =>
          if sumTruthy tgt then
            match moveModelBody md5 il lg mid tgt (tsAt i) cur with
            | .ok cur' => rpLoop mt tsAt rest (i + 1) cur'
            | .error c => .error c
          else rpLoop mt tsAt rest (i + 1) (removeModel md5 mid cur)
      | Option.none => rpLoop mt tsAt rest (i + 1) (removeModel md5 mid cur)

/-- Body of `Depot.remove_project`: raises when the project id is absent;
else iterates over a copy of the member list (moving or removing each
member), then deletes the project. -/
def removeProjectBody (pid : Int) (mt : Option (String ⊕ Int))
    (tsAt : Nat → PyDateTime) (s : St) : Except St St :=
  match s.projects.lookup pid with
  | Option.none => .error s
  | some p =>
      match p.models with
      | .inr _ => .error s
      | .inl memberIds =>
          match rpLoop md5 il lg mt tsAt memberIds 0 s with
          | .error c => .error c
          | .ok s' =>
              match s'.projects.lookup pid with
              | Option.none => .error s'
              | some _ => .ok ⟨s'.models, alErase s'.projects pid⟩

/-- `Depot.remove_project` (wrapped). -/
def removeProject (pid : Int) (mt : Option (String ⊕ Int))
    (tsAt : Nat → PyDateTime) (s : St) : St :=
  runWrap (removeProjectBody md5 il lg pid mt tsAt) s

end DepotOps

/-! ## Invariants and reachable states -/

/-- A well-formed model record as produced by the `Model` constructor: the
`meta_data` slot holds a `ModelMeta` whose attribute keys do not shadow the
`Model`'s own field names used by `Depot` (the three static fields and
`meta_data`).  A shadowing meta hijacks `get_field` resolution (which is
meta-first) and with it the identity hash and the project derivation. -/
def MetaOK (m : Model) : Prop :=
  ∃ mm, m.meta_data = Sum.inl mm ∧
    mm.attrs.lookup "model_object" = Option.none ∧
    mm.attrs.lookup "project_name" = Option.none ∧
    mm.attrs.lookup "timestamp" = Option.none ∧
    mm.attrs.lookup "meta_data" = Option.none

section Invariants

variable (md5 : String → Nat)

/-- Invariant I4 as claimed: every stored model's `project_name` hashes to a
key of the project index whose member list contains the model's stored id,
and conversely every id in any member list is a key of the model index whose
record's `project_name` hashes back to that project's key. -/
def I4 (s : St) : Prop :=
  (∀ pr ∈ s.models,
      ∃ p l, s.projects.lookup (produce_hash md5 (.str pr.2.project_name)) = some p ∧
        p.models = Sum.inl l ∧ pr.1 ∈ l) ∧
  (∀ pp ∈ s.projects, ∀ l, pp.2.models = Sum.inl l → ∀ mid ∈ l,
      ∃ m, s.models.lookup mid = some m ∧
        produce_hash md5 (.str m.project_name) = pp.1)

/-- The full inductive invariant of reachable depot states: both indexes have
distinct keys, every stored record sits under its own identity hash, stored
models are constructor-shaped (`MetaOK`), member lists are duplicate-free
lists, and I4 links the two indexes. -/
def StInv (s : St) : Prop :=
  (s.models.map Prod.fst).Nodup ∧
  (s.projects.map Prod.fst).Nodup ∧
  (∀ pr ∈ s.models, pr.1 = Model.idOf md5 pr.2 ∧ MetaOK pr.2) ∧
  (∀ pp ∈ s.projects, pp.1 = Project.idOf md5 pp.2 ∧
      ∃ l, pp.2.models = Sum.inl l ∧ l.Nodup) ∧
  I4 md5 s

/-- Side condition on `remove_project`'s optional move target: when truthy,
it must not resolve to the project being removed (by name: its hash is not
the removed key; by id: it is not the removed key). -/
def RemovableTarget (pid : Int) (mt : Option (String ⊕ Int)) : Prop :=
  match mt with
  | some (.inl nm) => nm ≠ "" → produce_hash md5 (.str nm) ≠ pid
  | some (.inr n) => n ≠ 0 → n ≠ pid
  | Option.none => True

end Invariants

/-- Depot states reachable from the empty indexes by the five operations of
P3/I4.  Wrapped operations that fail leave the state unchanged, so only the
constructor side conditions below restrict the sequences: an added model is
constructor-shaped, an added project carries an empty member list, and a
`remove_project` move target does not resolve to the removed project
itself. -/
inductive Reach (md5 : String → Nat) (il : PyVal → String) (lg : String) : St → Prop
  | empty : Reach md5 il lg stEmpty
  | addP {s} (p : Project) (hp : p.models = Sum.inl []) :
      Reach md5 il lg s → Reach md5 il lg (addProject md5 p s)
  | addM {s} (nm : Model) (hm : MetaOK nm) :
      Reach md5 il lg s → Reach md5 il lg (addModel md5 nm s)
  | remM {s} (mid : Int) :
      Reach md5 il lg s → Reach md5 il lg (removeModel md5 mid s)
  | move {s} (mid : Int) (tgt : String ⊕ Int) (ts : PyDateTime) :
      Reach md5 il lg s → Reach md5 il lg (moveModel md5 il lg mid tgt ts s)
  | remP {s} (pid : Int) (mt : Option (String ⊕ Int)) (tsAt : Nat → PyDateTime)
      (hmt : RemovableTarget md5 pid mt) :
      Reach md5 il lg s → Reach md5 il lg (removeProject md5 il lg pid mt tsAt s)

/-! ## The query-filter layer (`utils.resolve_search`, `Depot.search_models`) -/

/-- The five comparison operators of `_op_lookup`. -/
inductive CmpOp where
  | gt : CmpOp
  | lt : CmpOp
  | ge : CmpOp
  | le : CmpOp
  | eq : CmpOp
deriving DecidableEq, Repr

/-- `_op_lookup`: map the operator token to its comparator; unknown tokens
raise `KeyError`. -/
def opLookup : String → Option CmpOp
  | ">" => some .gt
  | "<" => some .lt
  | ">=" => some .ge
  | "<=" => some .le
  | "==" => some .eq
  | _ => Option.none

mutual
/-- Python `==` on modelled literal values: `True == 1` (bool/int
crossover), element-wise on tuples, `False` across unrelated literal kinds.
Comparisons reaching an opaque payload, or a timestamp against a
non-timestamp (pandas string-coercion), are outside the model and raise. -/
def pyEq : PyVal → PyVal → Except Unit Bool
  | .obj _, _ => .error ()
  | _, .obj _ => .error ()
  | .none, .none => .ok true
  | .bool a, .bool b => .ok (a == b)
  | .bool a, .int b => .ok ((if a then (1 : Int) else 0) == b)
  | .int a, .bool b => .ok (a == (if b then (1 : Int) else 0))
  | .int a, .int b => .ok (a == b)
  | .str a, .str b => .ok (a == b)
  | .ts a, .ts b => .ok (a == b)
  | .ts _, _ => .error ()
  | _, .ts _ => .error ()
  | .tuple a, .tuple b => pyEqTuple a b
  | _, _ => .ok false

/-- Element-wise tuple equality. -/
def pyEqTuple : PyTuple → PyTuple → Except Unit Bool
  | .nil, .nil => .ok true
  | .cons a as, .cons b bs => do
      let h ← pyEq a b
      if h then pyEqTuple as bs else .ok false
  | _, _ => .ok false
end

/-- The components of a timestamp, most significant first. -/
def tsKey (d : PyDateTime) : List Nat :=
  [d.year, d.month, d.day, d.hour, d.minute, d.second, d.microsecond]

/-- Chronological order on naive timestamps (lexicographic on components). -/
def tsLt (a b : PyDateTime) : Bool :=
  decide (tsKey a < tsKey b)

mutual
/-- Python `<` on modelled literal values: numbers (with bool crossover)
numerically, strings by code point, timestamps chronologically, tuples
lexicographically; mixed kinds raise `TypeError`, which `_inspect_model`
does NOT catch. -/
def pyLt : PyVal → PyVal → Except Unit Bool
  | .int a, .int b => .ok (a < b)
  | .bool a, .bool b => .ok ((if a then (1 : Int) else 0) < (if b then 1 else 0))
  | .bool a, .int b => .ok ((if a then (1 : Int) else 0) < b)
  | .int a, .bool b => .ok (a < (if b then (1 : Int) else 0))
  | .str a, .str b => .ok (a < b)
  | .ts a, .ts b => .ok (tsLt a b)
  | .tuple a, .tuple b => pyLtTuple a b
  | _, _ => .error ()

/-- Lexicographic tuple `<`. -/
def pyLtTuple : PyTuple → PyTuple → Except Unit Bool
  | .nil, .nil => .ok false
  | .nil, .cons _ _ => .ok true
  | .cons _ _, .nil => .ok false
  | .cons a as, .cons b bs => do
      let e ← pyEq a b
      if e then pyLtTuple as bs else pyLt a b
end

/-- Apply a comparator the way `operator.gt/lt/ge/le/eq` do, derived from
`<` and `==`. -/
def CmpOp.apply : CmpOp → PyVal → PyVal → Except Unit Bool
  | .lt, a, b => pyLt a b
  | .gt, a, b => pyLt b a
  | .eq, a, b => pyEq a b
  | .le, a, b => do
      let l ← pyLt a b
      if l then pure true else pyEq a b
  | .ge, a, b => do
      let l ← pyLt b a
      if l then pure true else pyEq a b

section QueryFilter

/- `literal_eval` and `pandas.to_datetime` are external parsers; the
development is parametric in their success/failure behaviour. -/
variable (litParse : String → Option PyVal) (dtParse : String → Option PyDateTime)

/-- `utils._resolve_type`: try `literal_eval`, then `to_datetime`, then fall
back to the raw string; the first successful parse wins. -/
def resolveType (s : String) : PyVal :=
  match litParse s with
  | some v => v
  | Option.none =>
      match dtParse s with
      | some d => .ts d
      | Option.none => .str s

/-- The single-quote character. -/
def squote : Char := Char.ofNat 39

/-- The match of `re.findall(r"(?P<cmp>[<>=]+)'?(?P<value>.*)'?", val)[0]`:
scanning from the left, the first maximal run of characters in `<>=` is the
`cmp` group; one single quote directly after it is consumed by the `'?`;
the greedy `.*` then captures up to the end of the line (stopping at a
newline, and swallowing any trailing quote, since the final `'?` can match
empty).  `none` is the unmatched case, where indexing `[0]` raises. -/
def regexSplit (val : String) : Option (String × String) :=
  match val.toList.dropWhile (fun c => !(c = '<' ∨ c = '>' ∨ c = '=')) with
  | [] => Option.none
  | rest =>
      let cmp := rest.takeWhile (fun c => c = '<' ∨ c = '>' ∨ c = '=')
      let after := rest.dropWhile (fun c => c = '<' ∨ c = '>' ∨ c = '=')
      let afterQuote := match after with
        | c :: tl => if c = squote then tl else after
        | [] => after
      some (String.mk cmp, String.mk (afterQuote.takeWhile (fun c => c ≠ '\n')))

/-- `utils.resolve_search`: split the expression with the regex, look the
operator token up (raising `KeyError` on an unknown token), and resolve the
value text with `_resolve_type`. -/
def resolveSearchE (val : String) : Except Unit (CmpOp × PyVal) :=
  match regexSplit val with
  | Option.none => .error ()
  | some (cmp, value) =>
      match opLookup cmp with
      | Option.none => .error ()
      | some op => .ok (op, resolveType litParse dtParse value)

/-- `Depot._inspect_model`: each keyword filter is parsed with
`resolve_search` (raises propagate) and evaluated against
`get_field(key)`; a missing field raises `AttributeError`, which the `try`
catches, excluding the record (`False`).  A comparison raising anything
else (for instance `TypeError` on mixed kinds) propagates.  Filters on the
`meta_data`/`models` record-valued fields hit Python reflected-operator
behaviour outside this model and are mapped to a raise. -/
def inspectModel (m : Model) : List (String × String) → Except Unit Bool
  | [] => .ok true
  | (k, v) :: rest => do
      let (op, lit) ← resolveSearchE litParse dtParse v
      match m.getField? k with
      | Option.none => .ok false
      | some (.py fv) =>
          match op.apply fv lit with
          | .error _ => .error ()
          | .ok true => inspectModel m rest
          | .ok false => .ok false
      | some _ => .error ()

end QueryFilter

/-- Insertion into a key-sorted association list. -/
def sortedInsert {β : Type} (kv : Int × β) : List (Int × β) → List (Int × β)
  | [] => [kv]
  | hd :: tl => if kv.1 ≤ hd.1 then kv :: hd :: tl else hd :: sortedInsert kv tl

/-- Ascending key order, as `IOBTree` iteration yields items. -/
def sortByKey {β : Type} (l : List (Int × β)) : List (Int × β) :=
  l.foldr sortedInsert []

/-- The output form of one search hit: the raw record, or its display string
(`view_only=True`); display formatting is excluded from the core, so the
renderer is the parameter `disp`. -/
inductive SearchHit where
  | raw : Model → SearchHit
  | disp : String → SearchHit
deriving DecidableEq, Repr

/-- Filter one candidate sequence as the final list comprehension of
`search_models` does, threading raised errors. -/
def searchFilter (litParse : String → Option PyVal)
    (dtParse : String → Option PyDateTime) (fmt : Model → SearchHit)
    (filters : List (String × String)) :
    List (Int × Model) → Except Unit (List (Int × SearchHit))
  | [] => .ok []
  | (k, m) :: rest => do
      let keep ← inspectModel litParse dtParse m filters
      let tail ← searchFilter litParse dtParse fmt filters rest
      if keep then pure ((k, fmt m) :: tail) else pure tail

/-- `Depot.search_models` (unwrapped: raises propagate to the caller).
With `project` given, the id is the argument itself when an `int`, else the
hash of the name; a missing project raises `KeyError`.  The candidate
generator is `((model.id, model) for model in project.get_field("models"))`
— but `get_field("models")` is the list of member IDS, so consuming the
first pair evaluates `int.id` and raises `AttributeError`; only an empty
member list yields a result (`[]`).  Without `project`, the whole model
index is scanned in key order. -/
def searchModels (md5 : String → Nat) (litParse : String → Option PyVal)
    (dtParse : String → Option PyDateTime) (disp : Model → String)
    (view_only : Bool) (project : Option (String ⊕ Int))
    (filters : List (String × String)) (s : St) :
    Except Unit (List (Int × SearchHit)) :=
  let fmt : Model → SearchHit := fun m => if view_only then .disp (disp m) else .raw m
  match project with
  | some tgt =>
      let pid := match tgt with
        | .inr n => n
        | .inl name => produce_hash md5 (.str name)
      match s.projects.lookup pid with
      | Option.none => .error ()
      | some p =>
          match p.models with
          | .inl [] => .ok []
          | _ => .error ()
  | Option.none => searchFilter litParse dtParse fmt filters (sortByKey s.models)

/-! ## Concrete instances used by witnesses and counterexamples -/

/-- A concrete stand-in digest (witnesses only quantify over the digest, so
any executable function will do). -/
def toyMd5 : String → Nat := fun s => s.data.foldl (fun a c => a * 131 + c.toNat + 7) 3

/-- A concrete stand-in for `infer_obj_module`. -/
def toyIl : PyVal → String := fun _ => "builtins"

/-- A concrete stand-in for `os.getlogin()`. -/
def toyLg : String := "tester"

/-- A literal parser that always fails (plain words parse as neither
literal nor date). -/
def toyLit : String → Option PyVal := fun _ => Option.none

/-- A timestamp parser that always fails. -/
def toyDt : String → Option PyDateTime := fun _ => Option.none

/-- A concrete display renderer. -/
def toyDisp : Model → String := fun _ => ""

/-- Concrete timestamps. -/
def wTs1 : PyDateTime := ⟨2024, 1, 2, 3, 4, 5, 6⟩

/-- A later concrete timestamp. -/
def wTs2 : PyDateTime := ⟨2024, 5, 6, 7, 8, 9, 10⟩

/-- A clock stream for `remove_project` inner constructions. -/
def wTsAt : Nat → PyDateTime := fun n => ⟨2025, 1, 1, 0, 0, 0, n⟩

/-- Concrete projects and models. -/
def wProj1 : Project := Project.make toyLg "p1" .none

/-- A second concrete project. -/
def wProj2 : Project := Project.make toyLg "p2" .none

/-- A concrete meta record. -/
def wMeta : ModelMeta := ModelMeta.ofDict [("learning_type", .str "supervised")]

/-- A concrete model under `"p1"`. -/
def wModel1 : Model := Model.make toyIl toyLg (.obj 48) "p1" wMeta wTs1

/-- The depot state after `add_project(wProj1)` from empty. -/
def wSt1 : St := addProject toyMd5 wProj1 stEmpty

/-- The depot state after additionally `add_model(wModel1)`. -/
def wSt2 : St := addModel toyMd5 wModel1 wSt1

/-- `Except` success as a boolean (no exception was raised). -/
def exOk {ε σ : Type} : Except ε σ → Bool
  | .ok _ => true
  | .error _ => false

/-- The stored meta record of `wModel1` (its attrs after `__post_init__`). -/
def wMetaStored : ModelMeta :=
  match wModel1.meta_data with
  | .inl mm => mm
  | .inr _ => ⟨[]⟩

/-- The depot state with both `"p1"` (holding `wModel1`) and `"p2"`. -/
def wSt3 : St := addProject toyMd5 wProj2 wSt2

/-- A model whose meta input dict carries a `creator` key, shadowing the
`Model`'s own `creator` field (`lg` here is `"bob"`). -/
def wShadowModel : Model :=
  Model.make toyIl "bob" (.obj 7) "p1" (ModelMeta.ofDict [("creator", .str "metaC")]) wTs1

/-- The quoted filter expression `=='supervised'` (built without literal
quote characters). -/
def c9expr : String :=
  "==" ++ String.singleton squote ++ "supervised" ++ String.singleton squote

/-- The value text the regex actually captures for `c9expr`: the trailing
quote survives. -/
def c9valText : String := "supervised" ++ String.singleton squote

/-! # Theorems -/

/-! ## Association-list toolkit -/

section AListLemmas

variable {α β : Type} [BEq α] [LawfulBEq α]

theorem al_lookup_append (k : α) (l1 l2 : List (α × β)) :
    (l1 ++ l2).lookup k = ((l1.lookup k).or (l2.lookup k)) := by
  induction l1 with
  | nil => simp [List.lookup]
  | cons hd tl ih =>
      obtain ⟨a, b⟩ := hd
      by_cases h : k == a
      · simp [List.lookup, h]
      · simp [List.lookup, h, ih]

theorem al_lookup_eq_none (k : α) (l : List (α × β)) :
    l.lookup k = Option.none ↔ k ∉ l.map Prod.fst := by
  induction l with
  | nil => simp [List.lookup]
  | cons hd tl ih =>
      obtain ⟨a, b⟩ := hd
      by_cases h : k == a
      · simp [List.lookup, h, eq_of_beq h]
      · have hka : k ≠ a := fun he => h (by simp [he])
        simp [List.lookup, h, ih, hka]

theorem al_lookup_isSome (k : α) (l : List (α × β)) :
    (l.lookup k).isSome = true ↔ k ∈ l.map Prod.fst := by
  rcases hl : l.lookup k with _ | v
  · simp [(al_lookup_eq_none k l).mp hl]
  · simp only [Option.isSome_some, true_iff]
    by_contra hk
    rw [(al_lookup_eq_none k l).mpr hk] at hl
    cases hl

theorem al_mem_of_lookup {k : α} {v : β} {l : List (α × β)}
    (h : l.lookup k = some v) : (k, v) ∈ l := by
  induction l with
  | nil => cases h
  | cons hd tl ih =>
      obtain ⟨a, b⟩ := hd
      by_cases hk : k == a
      · simp only [List.lookup, hk] at h
        cases h
        simp [eq_of_beq hk]
      · simp only [List.lookup, hk] at h
        exact List.mem_cons_of_mem _ (ih h)

theorem al_lookup_of_mem {k : α} {v : β} {l : List (α × β)}
    (hnd : (l.map Prod.fst).Nodup) (h : (k, v) ∈ l) : l.lookup k = some v := by
  induction l with
  | nil => cases h
  | cons hd tl ih =>
      obtain ⟨a, b⟩ := hd
      simp only [List.map_cons, List.nodup_cons] at hnd
      rcases List.mem_cons.mp h with h1 | h1
      · cases h1
        simp [List.lookup]
      · have hka : ¬(k == a) := by
          intro hk
          exact hnd.1 (by simpa [eq_of_beq hk] using List.mem_map_of_mem Prod.fst h1)
        simp only [List.lookup, hka]
        exact ih hnd.2 h1

end AListLemmas


theorem alSet_keys {α β : Type} [DecidableEq α] (l : List (α × β)) (k : α) (v : β) :
    (alSet l k v).map Prod.fst = l.map Prod.fst := by
  induction l with
  | nil => rfl
  | cons hd tl ih =>
      simp only [alSet, List.map_cons] at ih ⊢
      by_cases h : hd.1 = k
      · rw [if_pos h, ih]
        simp [h]
      · rw [if_neg h, ih]

theorem alSet_lookup_self {α β : Type} [DecidableEq α] [BEq α] [LawfulBEq α]
    (l : List (α × β)) (k : α) (v : β) :
    (alSet l k v).lookup k = (l.lookup k).map (fun _ => v) := by
  induction l with
  | nil => rfl
  | cons hd tl ih =>
      obtain ⟨a, b⟩ := hd
      simp only [alSet, List.map_cons] at ih ⊢
      by_cases h : a = k
      · subst h
        rw [if_pos rfl]
        simp [List.lookup]
      · rw [if_neg h]
        have h' : ¬(k == a) := by simpa using Ne.symm h
        simp only [List.lookup, h']
        exact ih

theorem alSet_lookup_ne {α β : Type} [DecidableEq α] [BEq α] [LawfulBEq α]
    (l : List (α × β)) {k k' : α} (h : k' ≠ k) (v : β) : (alSet l k v).lookup k' = l.lookup k' := by
  induction l with
  | nil => rfl
  | cons hd tl ih =>
      obtain ⟨a, b⟩ := hd
      simp only [alSet, List.map_cons] at ih ⊢
      by_cases ha : a = k
      · rw [if_pos ha]
        have h1 : ¬(k' == k) := by simpa using h
        have h2 : ¬(k' == a) := by simpa [ha] using h
        simp only [List.lookup, h1, h2]
        exact ih
      · rw [if_neg ha]
        simp only [List.lookup]
        by_cases hk : k' == a
        · simp [hk]
        · simp only [hk]
          exact ih

theorem alSet_mem_iff {α β : Type} [DecidableEq α] {l : List (α × β)} {k k' : α}
    {v v' : β} :
    (k', v') ∈ alSet l k v ↔
      ((k' ≠ k ∧ (k', v') ∈ l) ∨ (k' = k ∧ v' = v ∧ ∃ w, (k, w) ∈ l)) := by
  constructor
  · intro h
    rcases List.mem_map.mp h with ⟨⟨a, b⟩, hab, heq⟩
    by_cases ha : a = k
    · rw [if_pos ha] at heq
      cases heq
      exact Or.inr ⟨rfl, rfl, b, by simpa [ha] using hab⟩
    · rw [if_neg ha] at heq
      cases heq
      exact Or.inl ⟨ha, hab⟩
  · rintro (⟨hne, hmem⟩ | ⟨he, hv, w, hmem⟩)
    · exact List.mem_map.mpr ⟨(k', v'), hmem, by rw [if_neg hne]⟩
    · subst he
      subst hv
      exact List.mem_map.mpr ⟨(k', w), hmem, by rw [if_pos rfl]⟩

theorem alErase_mem_iff {α β : Type} [DecidableEq α] {l : List (α × β)} {k k' : α}
    {v' : β} :
    (k', v') ∈ alErase l k ↔ ((k', v') ∈ l ∧ k' ≠ k) := by
  simp [alErase, List.mem_filter]

theorem alErase_keys_sublist {α β : Type} [DecidableEq α] (l : List (α × β)) (k : α) :
    ((alErase l k).map Prod.fst).Sublist (l.map Prod.fst) :=
  (List.filter_sublist l).map Prod.fst

theorem alErase_lookup_ne {α β : Type} [DecidableEq α] [BEq α] [LawfulBEq α]
    (l : List (α × β)) {k k' : α} (h : k' ≠ k) : (alErase l k).lookup k' = l.lookup k' := by
  induction l with
  | nil => rfl
  | cons hd tl ih =>
      obtain ⟨a, b⟩ := hd
      simp only [alErase, List.filter_cons] at ih ⊢
      by_cases ha : a = k
      · rw [if_neg (by simp [ha])]
        have h2 : ¬(k' == a) := by simpa [ha] using h
        simp only [List.lookup, h2]
        exact ih
      · rw [if_pos (by simp [ha])]
        simp only [List.lookup]
        by_cases hk : k' == a
        · simp [hk]
        · simp only [hk]
          exact ih

theorem alErase_lookup_self {α β : Type} [DecidableEq α] [BEq α] [LawfulBEq α]
    (l : List (α × β)) (k : α) :
    (alErase l k).lookup k = Option.none := by
  rw [al_lookup_eq_none]
  intro hmem
  rcases List.mem_map.mp hmem with ⟨⟨a, b⟩, hab, heq⟩
  rcases alErase_mem_iff.mp hab with ⟨_, hne⟩
  exact hne heq

/-! ## Record-layer lemmas -/

theorem setAttr_lookup_ne {k k' : String} (h : k' ≠ k)
    (attrs : List (String × PyVal)) (v : PyVal) :
    (setAttr attrs k v).lookup k' = attrs.lookup k' := by
  unfold setAttr
  by_cases hs : (attrs.lookup k).isSome
  · rw [if_pos hs]
    exact alSet_lookup_ne attrs h v
  · rw [if_neg hs, al_lookup_append]
    have h1 : List.lookup k' [(k, v)] = Option.none := by
      have : ¬(k' == k) := by simpa using h
      simp [List.lookup, this]
    rw [h1, Option.or_none]

theorem make_model_object (il : PyVal → String) (lg : String) (obj : PyVal)
    (pname : String) (mm : ModelMeta) (ts : PyDateTime) :
    (Model.make il lg obj pname mm ts).model_object = obj := by
  unfold Model.make Model.setField Model.delegate? Model.setSelfField
  by_cases h : (((setAttr mm.attrs "model_library" (.str (il obj))).lookup "creator")).isSome
  · simp [h]
  · simp [h]

theorem make_project_name (il : PyVal → String) (lg : String) (obj : PyVal)
    (pname : String) (mm : ModelMeta) (ts : PyDateTime) :
    (Model.make il lg obj pname mm ts).project_name = pname := by
  unfold Model.make Model.setField Model.delegate? Model.setSelfField
  by_cases h : (((setAttr mm.attrs "model_library" (.str (il obj))).lookup "creator")).isSome
  · simp [h]
  · simp [h]

theorem make_timestamp (il : PyVal → String) (lg : String) (obj : PyVal)
    (pname : String) (mm : ModelMeta) (ts : PyDateTime) :
    (Model.make il lg obj pname mm ts).timestamp = ts := by
  unfold Model.make Model.setField Model.delegate? Model.setSelfField
  by_cases h : (((setAttr mm.attrs "model_library" (.str (il obj))).lookup "creator")).isSome
  · simp [h]
  · simp [h]

theorem make_MetaOK (il : PyVal → String) (lg : String) (obj : PyVal)
    (pname : String) (mm : ModelMeta) (ts : PyDateTime)
    (h1 : mm.attrs.lookup "model_object" = Option.none)
    (h2 : mm.attrs.lookup "project_name" = Option.none)
    (h3 : mm.attrs.lookup "timestamp" = Option.none)
    (h4 : mm.attrs.lookup "meta_data" = Option.none) :
    MetaOK (Model.make il lg obj pname mm ts) := by
  have e1 : ∀ w, (setAttr mm.attrs "model_library" w).lookup "model_object" = Option.none :=
    fun w => by rw [setAttr_lookup_ne (by decide), h1]
  have e2 : ∀ w, (setAttr mm.attrs "model_library" w).lookup "project_name" = Option.none :=
    fun w => by rw [setAttr_lookup_ne (by decide), h2]
  have e3 : ∀ w, (setAttr mm.attrs "model_library" w).lookup "timestamp" = Option.none :=
    fun w => by rw [setAttr_lookup_ne (by decide), h3]
  have e4 : ∀ w, (setAttr mm.attrs "model_library" w).lookup "meta_data" = Option.none :=
    fun w => by rw [setAttr_lookup_ne (by decide), h4]
  unfold Model.make Model.setField Model.delegate? Model.setSelfField
  by_cases h : (((setAttr mm.attrs "model_library" (.str (il obj))).lookup "creator")).isSome
  · simp only [h]
    refine ⟨⟨setAttr (setAttr mm.attrs "model_library" (.str (il obj))) "creator" (.str lg)⟩,
      by simp, ?_, ?_, ?_, ?_⟩
    · rw [setAttr_lookup_ne (by decide)]
      exact e1 _
    · rw [setAttr_lookup_ne (by decide)]
      exact e2 _
    · rw [setAttr_lookup_ne (by decide)]
      exact e3 _
    · rw [setAttr_lookup_ne (by decide)]
      exact e4 _
  · simp only [h]
    exact ⟨⟨setAttr mm.attrs "model_library" (.str (il obj))⟩, by simp, e1 _, e2 _, e3 _, e4 _⟩

theorem metaOK_getPy_pn {m : Model} (h : MetaOK m) :
    m.getPy "project_name" = .str m.project_name := by
  obtain ⟨mm, hmd, _, h2, _, _⟩ := h
  simp [Model.getPy, Model.getField?, Model.delegate?, hmd, h2, Model.selfField?]

theorem metaOK_idOf {md5 : String → Nat} {m : Model} (h : MetaOK m) :
    Model.idOf md5 m =
      produce_hash md5 (.tup [m.model_object, .str m.project_name, .ts m.timestamp]) := by
  obtain ⟨mm, hmd, h1, h2, h3, _⟩ := h
  unfold Model.idOf
  congr 1
  simp [Model.getPy, Model.getField?, Model.delegate?, hmd, h1, h2, h3, Model.selfField?]

theorem metaOK_meta_field {m : Model} {mm : ModelMeta} (h : MetaOK m)
    (hmd : m.meta_data = .inl mm) : m.getField? "meta_data" = some (.meta mm) := by
  obtain ⟨mm', hmd', _, _, _, h4⟩ := h
  rw [hmd] at hmd'
  cases hmd'
  simp [Model.getField?, Model.delegate?, hmd, h4, Model.selfField?]

theorem metaOK_obj_field {m : Model} (h : MetaOK m) :
    m.getField? "model_object" = some (.py m.model_object) := by
  obtain ⟨mm, hmd, h1, _, _, _⟩ := h
  simp [Model.getField?, Model.delegate?, hmd, h1, Model.selfField?]

/-! ## Operation characterizations and invariant preservation -/

theorem addModelBody_spec (md5 : String → Nat) (nm : Model) (s : St) :
    (addModelBody md5 nm s = .error s) ∨
    (∃ p l,
      s.projects.lookup (produce_hash md5 (.str nm.project_name)) = some p ∧
      p.models = Sum.inl l ∧
      s.models.lookup (Model.idOf md5 nm) = Option.none ∧
      Model.idOf md5 nm ∉ l ∧
      addModelBody md5 nm s =
        .ok ⟨s.models ++ [(Model.idOf md5 nm, nm)],
             alSet s.projects (produce_hash md5 (.str nm.project_name))
               { p with models := Sum.inl (l ++ [Model.idOf md5 nm]) }⟩) := by
  simp only [addModelBody]
  rcases hp : s.projects.lookup (produce_hash md5 (.str nm.project_name)) with _ | p
  · exact Or.inl rfl
  · dsimp only
    by_cases hm : (s.models.lookup (Model.idOf md5 nm)).isSome
    · rw [if_pos hm]
      exact Or.inl rfl
    · rw [if_neg hm]
      simp only [Project.addModelId]
      rcases hpm : p.models with l | v
      · dsimp only
        by_cases hmem : Model.idOf md5 nm ∈ l
        · rw [if_pos hmem]
          exact Or.inl rfl
        · rw [if_neg hmem]
          exact Or.inr ⟨p, l, rfl, hpm, Option.not_isSome_iff_eq_none.mp hm, hmem, rfl⟩
      · exact Or.inl rfl

theorem addModel_stinv {md5 : String → Nat} {nm : Model} {s : St}
    (hinv : StInv md5 s) (hm : MetaOK nm) : StInv md5 (addModel md5 nm s) := by
  rcases addModelBody_spec md5 nm s with herr | ⟨p, l, hp, hpl, hmidnone, hmidl, hok⟩
  · unfold addModel runWrap
    rw [herr]
    exact hinv
  · have hstate : addModel md5 nm s =
        ⟨s.models ++ [(Model.idOf md5 nm, nm)],
         alSet s.projects (produce_hash md5 (.str nm.project_name))
           { p with models := Sum.inl (l ++ [Model.idOf md5 nm]) }⟩ := by
      unfold addModel runWrap
      rw [hok]
    rw [hstate]
    obtain ⟨hndM, hndP, hM, hP, hE, hF⟩ := hinv
    refine ⟨?_, ?_, ?_, ?_, ?_, ?_⟩
    · rw [List.map_append]
      refine List.Nodup.append hndM (List.nodup_singleton _) ?_
      intro a ha hb
      simp only [List.map_cons, List.map_nil, List.mem_singleton] at hb
      subst hb
      exact ((al_lookup_eq_none _ s.models).mp hmidnone) ha
    · rw [alSet_keys]
      exact hndP
    · intro pr hpr
      rcases List.mem_append.mp hpr with h | h
      · exact hM pr h
      · simp only [List.mem_singleton] at h
        subst h
        exact ⟨rfl, hm⟩
    · intro pp hpp
      rcases alSet_mem_iff.mp hpp with ⟨hne, hmem⟩ | ⟨hkeq, hveq, _⟩
      · exact hP pp hmem
      · obtain ⟨hidp, l0, hl0, hnd0⟩ := hP _ (al_mem_of_lookup hp)
        rw [hpl] at hl0
        injection hl0 with hl0'
        subst hl0'
        refine ⟨?_, l ++ [Model.idOf md5 nm], by rw [hveq], ?_⟩
        · rw [hkeq, hveq]
          exact hidp
        · refine List.Nodup.append hnd0 (List.nodup_singleton _) ?_
          intro a ha hb
          simp only [List.mem_singleton] at hb
          subst hb
          exact hmidl ha
    · intro pr hpr
      rcases List.mem_append.mp hpr with h | h
      · obtain ⟨q, lq, hq, hql, hin⟩ := hE pr h
        by_cases hqp :
            produce_hash md5 (.str pr.2.project_name) =
              produce_hash md5 (.str nm.project_name)
        · rw [hqp, hp] at hq
          injection hq with hq'
          subst hq'
          rw [hpl] at hql
          injection hql with hql'
          subst hql'
          refine ⟨{ p with models := Sum.inl (l ++ [Model.idOf md5 nm]) },
            l ++ [Model.idOf md5 nm], ?_, rfl, List.mem_append_left _ hin⟩
          rw [hqp, alSet_lookup_self, hp]
          rfl
        · rw [alSet_lookup_ne _ hqp]
          exact ⟨q, lq, hq, hql, hin⟩
      · simp only [List.mem_singleton] at h
        subst h
        refine ⟨{ p with models := Sum.inl (l ++ [Model.idOf md5 nm]) },
          l ++ [Model.idOf md5 nm], ?_, rfl, List.mem_append_right _ (by simp)⟩
        rw [alSet_lookup_self, hp]
        rfl
    · intro pp hpp l' hl' x hx
      rcases alSet_mem_iff.mp hpp with ⟨hne, hmem⟩ | ⟨hkeq, hveq, _⟩
      · obtain ⟨mx, hmx, hhx⟩ := hF pp hmem l' hl' x hx
        refine ⟨mx, ?_, hhx⟩
        rw [al_lookup_append, hmx]
        rfl
      · rw [hveq] at hl'
        dsimp only at hl'
        injection hl' with hl''
        subst hl''
        rcases List.mem_append.mp hx with hxl | hxm
        · obtain ⟨mx, hmx, hhx⟩ := hF _ (al_mem_of_lookup hp) l hpl x hxl
          refine ⟨mx, ?_, by rw [hkeq]; exact hhx⟩
          rw [al_lookup_append, hmx]
          rfl
        · simp only [List.mem_singleton] at hxm
          subst hxm
          refine ⟨nm, ?_, by rw [hkeq]⟩
          rw [al_lookup_append, hmidnone]
          simp [List.lookup]

theorem removeModelBody_spec (md5 : String → Nat) (mid : Int) (s : St) :
    (removeModelBody md5 mid s = .error s) ∨
    (∃ m p l,
      s.models.lookup mid = some m ∧
      s.projects.lookup (produce_hash md5 (m.getPy "project_name")) = some p ∧
      p.models = Sum.inl l ∧ mid ∈ l ∧
      removeModelBody md5 mid s =
        .ok ⟨alErase s.models mid,
             alSet s.projects (produce_hash md5 (m.getPy "project_name"))
               { p with models := Sum.inl (l.erase mid) }⟩) := by
  simp only [removeModelBody]
  rcases hm : s.models.lookup mid with _ | m
  · exact Or.inl rfl
  · dsimp only
    rcases hp : s.projects.lookup (produce_hash md5 (m.getPy "project_name")) with _ | p
    · exact Or.inl rfl
    · dsimp only
      simp only [Project.removeModelId]
      rcases hpm : p.models with l | v
      · dsimp only
        by_cases hmem : mid ∈ l
        · rw [if_pos hmem]
          exact Or.inr ⟨m, p, l, rfl, hp, hpm, hmem, rfl⟩
        · rw [if_neg hmem]
          exact Or.inl rfl
      · exact Or.inl rfl

theorem removeModel_stinv {md5 : String → Nat} {mid : Int} {s : St}
    (hinv : StInv md5 s) : StInv md5 (removeModel md5 mid s) := by
  rcases removeModelBody_spec md5 mid s with herr | ⟨m, p, l, hm, hp, hpl, hmem, hok⟩
  · unfold removeModel runWrap
    rw [herr]
    exact hinv
  · have hstate : removeModel md5 mid s =
        ⟨alErase s.models mid,
         alSet s.projects (produce_hash md5 (m.getPy "project_name"))
           { p with models := Sum.inl (l.erase mid) }⟩ := by
      unfold removeModel runWrap
      rw [hok]
    rw [hstate]
    obtain ⟨hndM, hndP, hM, hP, hE, hF⟩ := hinv
    obtain ⟨hpid, l0, hl0, hnd0⟩ := hP _ (al_mem_of_lookup hp)
    rw [hpl] at hl0
    injection hl0 with hl0'
    subst hl0'
    have hmok : MetaOK m := (hM _ (al_mem_of_lookup hm)).2
    have hgp : m.getPy "project_name" = .str m.project_name := metaOK_getPy_pn hmok
    refine ⟨?_, ?_, ?_, ?_, ?_, ?_⟩
    · exact (alErase_keys_sublist s.models mid).nodup hndM
    · rw [alSet_keys]
      exact hndP
    · intro pr hpr
      exact hM pr (alErase_mem_iff.mp hpr).1
    · intro pp hpp
      rcases alSet_mem_iff.mp hpp with ⟨hne, hmem2⟩ | ⟨hkeq, hveq, _⟩
      · exact hP pp hmem2
      · refine ⟨?_, l.erase mid, by rw [hveq], hnd0.erase mid⟩
        rw [hkeq, hveq]
        exact hpid
    · intro pr hpr
      obtain ⟨hprm, hprne⟩ := alErase_mem_iff.mp hpr
      obtain ⟨q, lq, hq, hql, hin⟩ := hE pr hprm
      by_cases hqp :
          produce_hash md5 (.str pr.2.project_name) =
            produce_hash md5 (m.getPy "project_name")
      · rw [hqp, hp] at hq
        injection hq with hq'
        subst hq'
        rw [hpl] at hql
        injection hql with hql'
        subst hql'
        refine ⟨{ p with models := Sum.inl (l.erase mid) }, l.erase mid, ?_, rfl,
          List.mem_erase_of_ne hprne |>.mpr hin⟩
        rw [hqp, alSet_lookup_self, hp]
        rfl
      · rw [alSet_lookup_ne _ hqp]
        exact ⟨q, lq, hq, hql, hin⟩
    · intro pp hpp l' hl' x hx
      rcases alSet_mem_iff.mp hpp with ⟨hne, hmem2⟩ | ⟨hkeq, hveq, _⟩
      · obtain ⟨mx, hmx, hhx⟩ := hF pp hmem2 l' hl' x hx
        have hxne : x ≠ mid := by
          intro he
          subst he
          rw [hm] at hmx
          injection hmx with hmx'
          subst hmx'
          exact hne (by rw [hgp]; exact hhx.symm)
        refine ⟨mx, ?_, hhx⟩
        rw [alErase_lookup_ne _ hxne]
        exact hmx
      · rw [hveq] at hl'
        dsimp only at hl'
        injection hl' with hl''
        subst hl''
        have hxl : x ∈ l := (hnd0.mem_erase_iff.mp hx).2
        have hxne : x ≠ mid := (hnd0.mem_erase_iff.mp hx).1
        obtain ⟨mx, hmx, hhx⟩ := hF _ (al_mem_of_lookup hp) l hpl x hxl
        refine ⟨mx, ?_, by rw [hkeq]; exact hhx⟩
        rw [alErase_lookup_ne _ hxne]
        exact hmx

theorem addProjectBody_spec (md5 : String → Nat) (p : Project) (s : St) :
    ((s.projects.lookup (Project.idOf md5 p)).isSome ∧
      addProjectBody md5 p s = .error s) ∨
    (s.projects.lookup (Project.idOf md5 p) = Option.none ∧
      addProjectBody md5 p s = .ok ⟨s.models, s.projects ++ [(Project.idOf md5 p, p)]⟩) := by
  simp only [addProjectBody]
  by_cases h : (s.projects.lookup (Project.idOf md5 p)).isSome
  · rw [if_pos h]
    exact Or.inl ⟨h, rfl⟩
  · rw [if_neg h]
    exact Or.inr ⟨Option.not_isSome_iff_eq_none.mp h, rfl⟩

theorem addProject_stinv {md5 : String → Nat} {p : Project} {s : St}
    (hinv : StInv md5 s) (hp0 : p.models = Sum.inl []) :
    StInv md5 (addProject md5 p s) := by
  rcases addProjectBody_spec md5 p s with ⟨_, herr⟩ | ⟨hnone, hok⟩
  · unfold addProject runWrap
    rw [herr]
    exact hinv
  · have hstate : addProject md5 p s =
        ⟨s.models, s.projects ++ [(Project.idOf md5 p, p)]⟩ := by
      unfold addProject runWrap
      rw [hok]
    rw [hstate]
    obtain ⟨hndM, hndP, hM, hP, hE, hF⟩ := hinv
    refine ⟨hndM, ?_, hM, ?_, ?_, ?_⟩
    · rw [List.map_append]
      refine List.Nodup.append hndP (List.nodup_singleton _) ?_
      intro a ha hb
      simp only [List.map_cons, List.map_nil, List.mem_singleton] at hb
      subst hb
      exact ((al_lookup_eq_none _ s.projects).mp hnone) ha
    · intro pp hpp
      rcases List.mem_append.mp hpp with h | h
      · exact hP pp h
      · simp only [List.mem_singleton] at h
        subst h
        exact ⟨rfl, [], hp0, List.nodup_nil⟩
    · intro pr hpr
      obtain ⟨q, lq, hq, hql, hin⟩ := hE pr hpr
      refine ⟨q, lq, ?_, hql, hin⟩
      rw [al_lookup_append, hq]
      rfl
    · intro pp hpp l' hl' x hx
      rcases List.mem_append.mp hpp with h | h
      · exact hF pp h l' hl' x hx
      · simp only [List.mem_singleton] at h
        subst h
        rw [hp0] at hl'
        injection hl' with hl''
        subst hl''
        cases hx

theorem addModelBody_error {md5 : String → Nat} {nm : Model} {s c : St}
    (h : addModelBody md5 nm s = .error c) : c = s := by
  rcases addModelBody_spec md5 nm s with he | ⟨p, l, _, _, _, _, hok⟩
  · rw [he] at h
    injection h with h'
    exact h'.symm
  · rw [hok] at h
    cases h

theorem removeModelBody_error {md5 : String → Nat} {mid : Int} {s c : St}
    (h : removeModelBody md5 mid s = .error c) : c = s := by
  rcases removeModelBody_spec md5 mid s with he | ⟨m, p, l, _, _, _, _, hok⟩
  · rw [he] at h
    injection h with h'
    exact h'.symm
  · rw [hok] at h
    cases h

theorem addProjectBody_error {md5 : String → Nat} {p : Project} {s c : St}
    (h : addProjectBody md5 p s = .error c) : c = s := by
  rcases addProjectBody_spec md5 p s with ⟨_, he⟩ | ⟨_, hok⟩
  · rw [he] at h
    injection h with h'
    exact h'.symm
  · rw [hok] at h
    cases h

theorem updateObjectAttrBody_error {id : Int} {attr : String} {v : PyVal} {s c : St}
    (h : updateObjectAttrBody id attr v s = .error c) : c = s := by
  simp only [updateObjectAttrBody] at h
  rcases hm : s.models.lookup id with _ | m
  · rw [hm] at h
    dsimp only at h
    rcases hp : s.projects.lookup id with _ | p
    · rw [hp] at h
      injection h with h'
      exact h'.symm
    · rw [hp] at h
      dsimp only at h
      rcases hs : p.setField attr v with _ | p'
      · rw [hs] at h
        injection h with h'
        exact h'.symm
      · rw [hs] at h
        cases h
  · rw [hm] at h
    dsimp only at h
    rcases hs : m.setField attr v with _ | m'
    · rw [hs] at h
      injection h with h'
      exact h'.symm
    · rw [hs] at h
      cases h

theorem addModel_projects_keys (md5 : String → Nat) (nm : Model) (s : St) :
    (addModel md5 nm s).projects.map Prod.fst = s.projects.map Prod.fst := by
  rcases addModelBody_spec md5 nm s with he | ⟨p, l, _, _, _, _, hok⟩
  · unfold addModel runWrap
    rw [he]
  · unfold addModel runWrap
    rw [hok]
    exact alSet_keys _ _ _

theorem removeModel_projects_keys (md5 : String → Nat) (mid : Int) (s : St) :
    (removeModel md5 mid s).projects.map Prod.fst = s.projects.map Prod.fst := by
  rcases removeModelBody_spec md5 mid s with he | ⟨m, p, l, _, _, _, _, hok⟩
  · unfold removeModel runWrap
    rw [he]
  · unfold removeModel runWrap
    rw [hok]
    exact alSet_keys _ _ _

theorem addModel_lookup_projects_ne {md5 : String → Nat} {nm : Model} {s : St}
    {k : Int} (hk : k ≠ produce_hash md5 (.str nm.project_name)) :
    (addModel md5 nm s).projects.lookup k = s.projects.lookup k := by
  rcases addModelBody_spec md5 nm s with he | ⟨p, l, _, _, _, _, hok⟩
  · unfold addModel runWrap
    rw [he]
  · unfold addModel runWrap
    rw [hok]
    exact alSet_lookup_ne _ hk _

theorem addModel_models_lookup_mono {md5 : String → Nat} {nm : Model} {s : St}
    {x : Int} {m : Model} (h : s.models.lookup x = some m) :
    (addModel md5 nm s).models.lookup x = some m := by
  rcases addModelBody_spec md5 nm s with he | ⟨p, l, _, _, _, _, hok⟩
  · unfold addModel runWrap
    rw [he]
    exact h
  · unfold addModel runWrap
    rw [hok]
    dsimp only
    rw [al_lookup_append, h]
    rfl

theorem addModel_pid_entry {md5 : String → Nat} {nm : Model} {s : St}
    {pid : Int} {q : Project} {lq : List Int}
    (h : s.projects.lookup pid = some q) (hq : q.models = Sum.inl lq) :
    ∃ q' lq', (addModel md5 nm s).projects.lookup pid = some q' ∧
      q'.models = Sum.inl lq' ∧ (lq' = lq ∨ ∃ y, lq' = lq ++ [y]) ∧
      q'.project_name = q.project_name := by
  rcases addModelBody_spec md5 nm s with he | ⟨p, l, hp, hpl, _, _, hok⟩
  · unfold addModel runWrap
    rw [he]
    exact ⟨q, lq, h, hq, Or.inl rfl, rfl⟩
  · unfold addModel runWrap
    rw [hok]
    dsimp only
    by_cases hpk : pid = produce_hash md5 (.str nm.project_name)
    · subst hpk
      rw [h] at hp
      injection hp with hp'
      subst hp'
      rw [hq] at hpl
      injection hpl with hpl'
      subst hpl'
      refine ⟨{ q with models := Sum.inl (lq ++ [Model.idOf md5 nm]) },
        lq ++ [Model.idOf md5 nm], ?_, rfl, Or.inr ⟨_, rfl⟩, rfl⟩
      rw [alSet_lookup_self, h]
      rfl
    · rw [alSet_lookup_ne _ hpk]
      exact ⟨q, lq, h, hq, Or.inl rfl, rfl⟩

theorem removeModel_pid_entry {md5 : String → Nat} {mid : Int} {s : St}
    {pid : Int} {q : Project} {lq : List Int}
    (h : s.projects.lookup pid = some q) (hq : q.models = Sum.inl lq) :
    ∃ q' lq', (removeModel md5 mid s).projects.lookup pid = some q' ∧
      q'.models = Sum.inl lq' ∧ (lq' = lq ∨ lq' = lq.erase mid) ∧
      q'.project_name = q.project_name := by
  rcases removeModelBody_spec md5 mid s with he | ⟨m, p, l, hm, hp, hpl, hmem, hok⟩
  · unfold removeModel runWrap
    rw [he]
    exact ⟨q, lq, h, hq, Or.inl rfl, rfl⟩
  · unfold removeModel runWrap
    rw [hok]
    dsimp only
    by_cases hpk : pid = produce_hash md5 (m.getPy "project_name")
    · subst hpk
      rw [h] at hp
      injection hp with hp'
      subst hp'
      rw [hq] at hpl
      injection hpl with hpl'
      subst hpl'
      refine ⟨{ q with models := Sum.inl (lq.erase mid) }, lq.erase mid, ?_, rfl,
        Or.inr rfl, rfl⟩
      rw [alSet_lookup_self, h]
      rfl
    · rw [alSet_lookup_ne _ hpk]
      exact ⟨q, lq, h, hq, Or.inl rfl, rfl⟩

theorem removeModel_exact {md5 : String → Nat} {mid : Int} {s : St}
    {pid : Int} {q : Project} {lq : List Int}
    (hinv : StInv md5 s) (hpq : s.projects.lookup pid = some q)
    (hq : q.models = Sum.inl lq) (hmid : mid ∈ lq) :
    ∃ m, s.models.lookup mid = some m ∧
      produce_hash md5 (.str m.project_name) = pid ∧
      removeModel md5 mid s =
        ⟨alErase s.models mid,
         alSet s.projects pid { q with models := Sum.inl (lq.erase mid) }⟩ := by
  obtain ⟨hndM, hndP, hM, hP, hE, hF⟩ := hinv
  obtain ⟨m, hm, hhash⟩ := hF (pid, q) (al_mem_of_lookup hpq) lq hq mid hmid
  have hmok : MetaOK m := (hM _ (al_mem_of_lookup hm)).2
  have hkey : produce_hash md5 (m.getPy "project_name") = pid := by
    rw [metaOK_getPy_pn hmok]
    exact hhash
  refine ⟨m, hm, hhash, ?_⟩
  unfold removeModel runWrap
  simp only [removeModelBody]
  rw [hm]
  dsimp only
  rw [hkey, hpq]
  dsimp only
  simp only [Project.removeModelId]
  rw [hq]
  dsimp only
  rw [if_pos hmid]

theorem addModel_exact {md5 : String → Nat} {nm : Model} {s : St}
    {p : Project} {l : List Int}
    (hp : s.projects.lookup (produce_hash md5 (.str nm.project_name)) = some p)
    (hpl : p.models = Sum.inl l)
    (hmid : s.models.lookup (Model.idOf md5 nm) = Option.none)
    (hml : Model.idOf md5 nm ∉ l) :
    addModel md5 nm s =
      ⟨s.models ++ [(Model.idOf md5 nm, nm)],
       alSet s.projects (produce_hash md5 (.str nm.project_name))
         { p with models := Sum.inl (l ++ [Model.idOf md5 nm]) }⟩ := by
  unfold addModel runWrap
  simp only [addModelBody]
  rw [hp]
  dsimp only
  rw [if_neg (by rw [hmid]; simp)]
  simp only [Project.addModelId]
  rw [hpl]
  dsimp only
  rw [if_neg hml]

theorem moveResolved_ok {md5 : String → Nat} {il : PyVal → String} {lg : String}
    {mid : Int} {em : Model} {np : String} {ts : PyDateTime} {s : St} {mm : ModelMeta}
    (hmd : em.meta_data = Sum.inl mm) (hok : MetaOK em) :
    moveResolved md5 il lg mid em np ts s =
      .ok (removeModel md5 mid
        (addModel md5 (Model.make il lg em.model_object np mm ts) s)) := by
  unfold moveResolved
  rw [metaOK_meta_field hok hmd, metaOK_obj_field hok]

theorem moveResolved_error {md5 : String → Nat} {il : PyVal → String} {lg : String}
    {mid : Int} {em : Model} {np : String} {ts : PyDateTime} {s c : St}
    (h : moveResolved md5 il lg mid em np ts s = .error c) : c = s := by
  unfold moveResolved at h
  rcases h1 : em.getField? "meta_data" with _ | fv
  · rw [h1] at h
    injection h with h'
    exact h'.symm
  · rw [h1] at h
    rcases fv with v | mm | ids
    · injection h with h'
      exact h'.symm
    · dsimp only at h
      rcases h2 : em.getField? "model_object" with _ | fv2
      · rw [h2] at h
        injection h with h'
        exact h'.symm
      · rw [h2] at h
        rcases fv2 with v2 | mm2 | ids2
        · cases h
        · injection h with h'
          exact h'.symm
        · injection h with h'
          exact h'.symm
    · injection h with h'
      exact h'.symm

theorem moveModelBody_error {md5 : String → Nat} {il : PyVal → String} {lg : String}
    {mid : Int} {tgt : String ⊕ Int} {ts : PyDateTime} {s c : St}
    (h : moveModelBody md5 il lg mid tgt ts s = .error c) : c = s := by
  simp only [moveModelBody] at h
  rcases hm : s.models.lookup mid with _ | em
  · rw [hm] at h
    injection h with h'
    exact h'.symm
  · rw [hm] at h
    dsimp only at h
    rcases tgt with name | n
    · exact moveResolved_error h
    · dsimp only at h
      rcases hn : s.projects.lookup n with _ | q
      · rw [hn] at h
        injection h with h'
        exact h'.symm
      · rw [hn] at h
        exact moveResolved_error h

theorem moveModelBody_ok_spec {md5 : String → Nat} {il : PyVal → String} {lg : String}
    {mid : Int} {tgt : String ⊕ Int} {ts : PyDateTime} {s s' : St}
    (h : moveModelBody md5 il lg mid tgt ts s = .ok s') :
    ∃ em np mm obj, s.models.lookup mid = some em ∧
      em.getField? "meta_data" = some (.meta mm) ∧
      em.getField? "model_object" = some (.py obj) ∧
      s' = removeModel md5 mid (addModel md5 (Model.make il lg obj np mm ts) s) := by
  simp only [moveModelBody] at h
  rcases hm : s.models.lookup mid with _ | em
  · rw [hm] at h
    cases h
  · rw [hm] at h
    dsimp only at h
    have core : ∀ np, moveResolved md5 il lg mid em np ts s = .ok s' →
        ∃ em' np' mm obj, s.models.lookup mid = some em' ∧
          em'.getField? "meta_data" = some (.meta mm) ∧
          em'.getField? "model_object" = some (.py obj) ∧
          s' = removeModel md5 mid (addModel md5 (Model.make il lg obj np' mm ts) s) := by
      intro np hres
      unfold moveResolved at hres
      rcases h1 : em.getField? "meta_data" with _ | fv
      · rw [h1] at hres
        cases hres
      · rw [h1] at hres
        rcases fv with v | mm | ids
        · cases hres
        · dsimp only at hres
          rcases h2 : em.getField? "model_object" with _ | fv2
          · rw [h2] at hres
            cases hres
          · rw [h2] at hres
            rcases fv2 with v2 | mm2 | ids2
            · injection hres with h'
              exact ⟨em, np, mm, v2, hm, h1, h2, h'.symm⟩
            · cases hres
            · cases hres
        · cases hres
    rcases tgt with name | n
    · obtain ⟨em', np', mmx, objx, hml, ha, hb2, hc⟩ := core name h
      rw [hm] at hml
      exact ⟨em', np', mmx, objx, hml, ha, hb2, hc⟩
    · dsimp only at h
      rcases hn : s.projects.lookup n with _ | q
      · rw [hn] at h
        cases h
      · rw [hn] at h
        obtain ⟨em', np', mmx, objx, hml, ha, hb2, hc⟩ := core q.project_name h
        rw [hm] at hml
        exact ⟨em', np', mmx, objx, hml, ha, hb2, hc⟩

theorem moveModelBody_ok_stinv {md5 : String → Nat} {il : PyVal → String} {lg : String}
    {mid : Int} {tgt : String ⊕ Int} {ts : PyDateTime} {s s' : St}
    (hinv : StInv md5 s) (h : moveModelBody md5 il lg mid tgt ts s = .ok s') :
    StInv md5 s' := by
  obtain ⟨em, np, mm, obj, hm, hmeta, hobj, hs'⟩ := moveModelBody_ok_spec h
  have hmok : MetaOK em := (hinv.2.2.1 _ (al_mem_of_lookup hm)).2
  obtain ⟨mm0, hmd0, e1, e2, e3, e4⟩ := hmok
  rw [metaOK_meta_field ⟨mm0, hmd0, e1, e2, e3, e4⟩ hmd0] at hmeta
  injection hmeta with hmeta'
  injection hmeta' with hmeta''
  subst hmeta''
  rw [metaOK_obj_field ⟨mm0, hmd0, e1, e2, e3, e4⟩] at hobj
  injection hobj with hobj'
  injection hobj' with hobj''
  subst hobj''
  subst hs'
  exact removeModel_stinv (addModel_stinv hinv (make_MetaOK il lg _ np _ ts e1 e2 e3 e4))

theorem moveModel_stinv {md5 : String → Nat} {il : PyVal → String} {lg : String}
    {mid : Int} {tgt : String ⊕ Int} {ts : PyDateTime} {s : St}
    (hinv : StInv md5 s) : StInv md5 (moveModel md5 il lg mid tgt ts s) := by
  unfold moveModel runWrap
  rcases hb : moveModelBody md5 il lg mid tgt ts s with c | s'
  · rw [moveModelBody_error hb]
    exact hinv
  · exact moveModelBody_ok_stinv hinv hb

theorem moveModelBody_ok_of {md5 : String → Nat} {il : PyVal → String} {lg : String}
    {mid : Int} {tgt : String ⊕ Int} {ts : PyDateTime} {s : St} {em : Model} {mm : ModelMeta}
    (hm : s.models.lookup mid = some em) (hmd : em.meta_data = Sum.inl mm)
    (hok : MetaOK em)
    (htgt : ∀ n, tgt = Sum.inr n → (s.projects.lookup n).isSome) :
    ∃ np, moveModelBody md5 il lg mid tgt ts s =
        .ok (removeModel md5 mid
          (addModel md5 (Model.make il lg em.model_object np mm ts) s)) ∧
      (tgt = Sum.inl np ∨
        ∃ n qn, tgt = Sum.inr n ∧ s.projects.lookup n = some qn ∧
          np = qn.project_name) := by
  simp only [moveModelBody]
  rw [hm]
  dsimp only
  rcases tgt with name | n
  · exact ⟨name, moveResolved_ok hmd hok, Or.inl rfl⟩
  · dsimp only
    rcases hn : s.projects.lookup n with _ | qn
    · have hx := htgt n rfl
      rw [hn] at hx
      simp at hx
    · exact ⟨qn.project_name, moveResolved_ok hmd hok,
        Or.inr ⟨n, qn, rfl, hn, rfl⟩⟩

theorem lookup_isSome_of_keys_eq {l1 l2 : List (Int × Project)}
    (hk : l1.map Prod.fst = l2.map Prod.fst) {n : Int}
    (h : (l2.lookup n).isSome = true) : (l1.lookup n).isSome = true := by
  rw [al_lookup_isSome] at h ⊢
  rw [hk]
  exact h

theorem phash_str_eq_idOf (md5 : String → Nat) (q : Project) :
    produce_hash md5 (.str q.project_name) = Project.idOf md5 q := rfl

theorem rpLoop_exact {md5 : String → Nat} {il : PyVal → String} {lg : String}
    {mt : Option (String ⊕ Int)} {tsAt : Nat → PyDateTime} {pid : Int}
    (hmt : RemovableTarget md5 pid mt) :
    ∀ (ids : List Int) (i : Nat) (cur : St) (q : Project),
      StInv md5 cur →
      cur.projects.lookup pid = some q → q.models = Sum.inl ids →
      (∀ n, mt = some (Sum.inr n) → n ≠ 0 →
        (cur.projects.lookup n).isSome = true) →
      ∃ s' qf, rpLoop md5 il lg mt tsAt ids i cur = .ok s' ∧ StInv md5 s' ∧
        s'.projects.lookup pid = some qf ∧ qf.models = Sum.inl [] := by
  intro ids
  induction ids with
  | nil =>
      intro i cur q hinv hpq hql hcond
      exact ⟨cur, q, rfl, hinv, hpq, hql⟩
  | cons mid rest ih =>
      intro i cur q hinv hpq hql hcond
      obtain ⟨_, l0, hl0, hnd0⟩ := hinv.2.2.2.1 _ (al_mem_of_lookup hpq)
      rw [hql] at hl0
      injection hl0 with hl0'
      subst hl0'
      have hmidrest : mid ∉ rest := by
        intro hmem
        exact (List.nodup_cons.mp hnd0).1 hmem
      -- the model behind `mid` and the one step of the loop
      have hstep : ∃ cur', rpLoop md5 il lg mt tsAt (mid :: rest) i cur =
          rpLoop md5 il lg mt tsAt rest (i + 1) cur' ∧ StInv md5 cur' ∧
          cur'.projects.lookup pid = some { q with models := Sum.inl rest } ∧
          cur'.projects.map Prod.fst = cur.projects.map Prod.fst := by
        have hremove : ∀ t : St, StInv md5 t →
            t.projects.lookup pid = some q →
            t.projects.map Prod.fst = cur.projects.map Prod.fst →
            (removeModel md5 mid t).projects.lookup pid =
                some { q with models := Sum.inl rest } ∧
              StInv md5 (removeModel md5 mid t) ∧
              (removeModel md5 mid t).projects.map Prod.fst =
                cur.projects.map Prod.fst := by
          intro t hinvt hpqt hkeyst
          obtain ⟨m, hm, hhash, heq⟩ :=
            removeModel_exact hinvt hpqt hql (List.mem_cons_self mid rest)
          refine ⟨?_, removeModel_stinv hinvt, ?_⟩
          · rw [heq]
            dsimp only
            rw [alSet_lookup_self, hpqt]
            dsimp only [Option.map]
            rw [List.erase_cons_head]
          · rw [removeModel_projects_keys, hkeyst]
        rcases hmtc : mt with _ | tgt
        · simp only [rpLoop]
          obtain ⟨h1, h2, h3⟩ := hremove cur hinv hpq rfl
          exact ⟨removeModel md5 mid cur, rfl, h2, h1, h3⟩
        · simp only [rpLoop]
          by_cases htr : sumTruthy tgt
          · rw [if_pos htr]
            -- genuine move of `mid` to the (non-`pid`) target
            obtain ⟨m, hm, hhash⟩ := hinv.2.2.2.2.2 _ (al_mem_of_lookup hpq)
              (mid :: rest) hql mid (List.mem_cons_self mid rest)
            have hmok : MetaOK m := (hinv.2.2.1 _ (al_mem_of_lookup hm)).2
            obtain ⟨mm, hmd, e1, e2, e3, e4⟩ := hmok
            have htgtok : ∀ n, tgt = Sum.inr n →
                (cur.projects.lookup n).isSome = true := by
              intro n hn
              subst hn
              refine hcond n (by rw [hmtc]) ?_
              simpa [sumTruthy] using htr
            obtain ⟨np, hmove, hnp⟩ := moveModelBody_ok_of hm hmd
              ⟨mm, hmd, e1, e2, e3, e4⟩ htgtok
            rw [hmove]
            -- the new model's project key differs from `pid`
            have hkne : produce_hash md5
                (.str (Model.make il lg m.model_object np mm (tsAt i)).project_name) ≠
                  pid := by
              rw [make_project_name]
              rcases hnp with hni | ⟨n, qn, htg, hqn, hnpq⟩
              · subst hni
                rw [hmtc] at hmt
                simp only [RemovableTarget] at hmt
                exact hmt (by simpa [sumTruthy] using htr)
              · subst hnpq
                subst htg
                rw [phash_str_eq_idOf]
                rw [← (hinv.2.2.2.1 _ (al_mem_of_lookup hqn)).1]
                rw [hmtc] at hmt
                simp only [RemovableTarget] at hmt
                exact hmt (by simpa [sumTruthy] using htr)
            have hpq1 : (addModel md5 (Model.make il lg m.model_object np mm (tsAt i))
                cur).projects.lookup pid = some q := by
              rw [addModel_lookup_projects_ne (fun he => hkne he.symm)]
              exact hpq
            have hinv1 := addModel_stinv hinv
              (make_MetaOK il lg m.model_object np mm (tsAt i) e1 e2 e3 e4)
            obtain ⟨h1, h2, h3⟩ := hremove _ hinv1 hpq1
              (by rw [addModel_projects_keys])
            exact ⟨_, rfl, h2, h1, h3⟩
          · rw [if_neg htr]
            obtain ⟨h1, h2, h3⟩ := hremove cur hinv hpq rfl
            exact ⟨removeModel md5 mid cur, rfl, h2, h1, h3⟩
      obtain ⟨cur', hloop, hinv', hpq', hkeys'⟩ := hstep
      rw [hloop]
      refine ih (i + 1) cur' _ hinv' hpq' rfl ?_
      intro n hmn hn0
      exact lookup_isSome_of_keys_eq hkeys' (hcond n hmn hn0)

theorem rpLoop_ok {md5 : String → Nat} {il : PyVal → String} {lg : String}
    {mt : Option (String ⊕ Int)} {tsAt : Nat → PyDateTime} {pid : Int} :
    ∀ (ids : List Int) (i : Nat) (cur : St),
      StInv md5 cur → ids.Nodup →
      (∃ q lq, cur.projects.lookup pid = some q ∧ q.models = Sum.inl lq ∧
        ∀ x ∈ ids, x ∈ lq) →
      (∀ n, mt = some (Sum.inr n) → n ≠ 0 →
        (cur.projects.lookup n).isSome = true) →
      ∃ s', rpLoop md5 il lg mt tsAt ids i cur = .ok s' ∧ StInv md5 s' ∧
        (s'.projects.lookup pid).isSome = true := by
  intro ids
  induction ids with
  | nil =>
      intro i cur hinv _ hent hcond
      obtain ⟨q, lq, hpq, _, _⟩ := hent
      exact ⟨cur, rfl, hinv, by rw [hpq]; rfl⟩
  | cons mid rest ih =>
      intro i cur hinv hnd hent hcond
      obtain ⟨q, lq, hpq, hql, hsub⟩ := hent
      have hmidrest : mid ∉ rest := (List.nodup_cons.mp hnd).1
      have hndrest : rest.Nodup := (List.nodup_cons.mp hnd).2
      have hstep : ∃ cur', rpLoop md5 il lg mt tsAt (mid :: rest) i cur =
          rpLoop md5 il lg mt tsAt rest (i + 1) cur' ∧ StInv md5 cur' ∧
          (∃ q' lq', cur'.projects.lookup pid = some q' ∧
            q'.models = Sum.inl lq' ∧ ∀ x ∈ rest, x ∈ lq') ∧
          cur'.projects.map Prod.fst = cur.projects.map Prod.fst := by
        have hafter : ∀ t : St, StInv md5 t →
            (∃ qt lt, t.projects.lookup pid = some qt ∧ qt.models = Sum.inl lt ∧
              ∀ x ∈ rest, x ∈ lt) →
            t.projects.map Prod.fst = cur.projects.map Prod.fst →
            StInv md5 (removeModel md5 mid t) ∧
            (∃ q' lq', (removeModel md5 mid t).projects.lookup pid = some q' ∧
              q'.models = Sum.inl lq' ∧ ∀ x ∈ rest, x ∈ lq') ∧
            (removeModel md5 mid t).projects.map Prod.fst =
              cur.projects.map Prod.fst := by
          intro t hinvt hentt hkeyst
          obtain ⟨qt, lt, hpqt, hqlt, hsubt⟩ := hentt
          obtain ⟨q', lq', hq', hql', hcase, _⟩ := removeModel_pid_entry hpqt hqlt
          refine ⟨removeModel_stinv hinvt, ⟨q', lq', hq', hql', ?_⟩, ?_⟩
          · intro x hx
            rcases hcase with hc | hc
            · rw [hc]
              exact hsubt x hx
            · rw [hc]
              refine (List.mem_erase_of_ne ?_).mpr (hsubt x hx)
              intro he
              subst he
              exact hmidrest hx
          · rw [removeModel_projects_keys, hkeyst]
        have hentcur : ∃ qt lt, cur.projects.lookup pid = some qt ∧
            qt.models = Sum.inl lt ∧ ∀ x ∈ rest, x ∈ lt :=
          ⟨q, lq, hpq, hql, fun x hx => hsub x (List.mem_cons_of_mem _ hx)⟩
        rcases hmtc : mt with _ | tgt
        · simp only [rpLoop]
          obtain ⟨h1, h2, h3⟩ := hafter cur hinv hentcur rfl
          exact ⟨removeModel md5 mid cur, rfl, h1, h2, h3⟩
        · simp only [rpLoop]
          by_cases htr : sumTruthy tgt
          · rw [if_pos htr]
            obtain ⟨m, hm, hhash⟩ := hinv.2.2.2.2.2 _ (al_mem_of_lookup hpq)
              lq hql mid (hsub mid (List.mem_cons_self mid rest))
            have hmok : MetaOK m := (hinv.2.2.1 _ (al_mem_of_lookup hm)).2
            obtain ⟨mm, hmd, e1, e2, e3, e4⟩ := hmok
            have htgtok : ∀ n, tgt = Sum.inr n →
                (cur.projects.lookup n).isSome = true := by
              intro n hn
              subst hn
              refine hcond n (by rw [hmtc]) ?_
              simpa [sumTruthy] using htr
            obtain ⟨np, hmove, hnp⟩ := moveModelBody_ok_of hm hmd
              ⟨mm, hmd, e1, e2, e3, e4⟩ htgtok
            rw [hmove]
            have hinv1 := addModel_stinv hinv
              (make_MetaOK il lg m.model_object np mm (tsAt i) e1 e2 e3 e4)
            obtain ⟨q1, lq1, hq1, hql1, hcase1, _⟩ := addModel_pid_entry hpq hql
            have hent1 : ∃ qt lt,
                (addModel md5 (Model.make il lg m.model_object np mm (tsAt i))
                  cur).projects.lookup pid = some qt ∧ qt.models = Sum.inl lt ∧
                ∀ x ∈ rest, x ∈ lt := by
              refine ⟨q1, lq1, hq1, hql1, ?_⟩
              intro x hx
              have hxl : x ∈ lq := hsub x (List.mem_cons_of_mem _ hx)
              rcases hcase1 with hc | ⟨y, hc⟩
              · rw [hc]
                exact hxl
              · rw [hc]
                exact List.mem_append_left _ hxl
            obtain ⟨h1, h2, h3⟩ := hafter _ hinv1 hent1 (by rw [addModel_projects_keys])
            exact ⟨_, rfl, h1, h2, h3⟩
          · rw [if_neg htr]
            obtain ⟨h1, h2, h3⟩ := hafter cur hinv hentcur rfl
            exact ⟨removeModel md5 mid cur, rfl, h1, h2, h3⟩
      obtain ⟨cur', hloop, hinv', hent', hkeys'⟩ := hstep
      rw [hloop]
      refine ih (i + 1) cur' hinv' hndrest hent' ?_
      intro n hmn hn0
      exact lookup_isSome_of_keys_eq hkeys' (hcond n hmn hn0)

theorem alErase_project_stinv {md5 : String → Nat} {t : St} {pid : Int} {qf : Project}
    (hinv : StInv md5 t) (hqf : t.projects.lookup pid = some qf)
    (hempty : qf.models = Sum.inl []) :
    StInv md5 ⟨t.models, alErase t.projects pid⟩ := by
  obtain ⟨hndM, hndP, hM, hP, hE, hF⟩ := hinv
  refine ⟨hndM, (alErase_keys_sublist t.projects pid).nodup hndP, hM, ?_, ?_, ?_⟩
  · intro pp hpp
    exact hP pp (alErase_mem_iff.mp hpp).1
  · intro pr hpr
    obtain ⟨q, lq, hq, hql, hin⟩ := hE pr hpr
    by_cases hqp : produce_hash md5 (.str pr.2.project_name) = pid
    · rw [hqp, hqf] at hq
      injection hq with hq'
      subst hq'
      rw [hempty] at hql
      injection hql with hql'
      rw [← hql'] at hin
      cases hin
    · rw [alErase_lookup_ne _ hqp]
      exact ⟨q, lq, hq, hql, hin⟩
  · intro pp hpp l' hl' x hx
    exact hF pp (alErase_mem_iff.mp hpp).1 l' hl' x hx

theorem removeProject_stinv {md5 : String → Nat} {il : PyVal → String} {lg : String}
    {pid : Int} {mt : Option (String ⊕ Int)} {tsAt : Nat → PyDateTime} {s : St}
    (hinv : StInv md5 s) (hmt : RemovableTarget md5 pid mt) :
    StInv md5 (removeProject md5 il lg pid mt tsAt s) := by
  unfold removeProject runWrap
  simp only [removeProjectBody]
  rcases hp : s.projects.lookup pid with _ | p
  · exact hinv
  · dsimp only
    rcases hpm : p.models with memberIds | v
    · dsimp only
      by_cases hcond : ∀ n, mt = some (Sum.inr n) → n ≠ 0 →
          (s.projects.lookup n).isSome = true
      · obtain ⟨s', qf, hloop, hinv', hqf, hqfm⟩ :=
          rpLoop_exact hmt memberIds 0 s p hinv hp hpm hcond
        rw [hloop]
        dsimp only
        rw [hqf]
        exact alErase_project_stinv hinv' hqf hqfm
      · push_neg at hcond
        obtain ⟨n, hmn, hn0, hnabs⟩ := hcond
        have hnone : s.projects.lookup n = Option.none := by
          rcases hv : s.projects.lookup n with _ | v2
          · rfl
          · rw [hv] at hnabs
            simp at hnabs
        subst hmn
        rcases memberIds with _ | ⟨mid, rest⟩
        · simp only [rpLoop]
          rw [hp]
          exact alErase_project_stinv hinv hp hpm
        · simp only [rpLoop]
          rw [if_pos (by simpa [sumTruthy] using hn0)]
          have hmove : moveModelBody md5 il lg mid (Sum.inr n) (tsAt 0) s =
              .error s := by
            simp only [moveModelBody]
            rcases hm : s.models.lookup mid with _ | em
            · rfl
            · dsimp only
              rw [hnone]
          rw [hmove]
          exact hinv
    · exact hinv

theorem removeProjectBody_error_of_inv {md5 : String → Nat} {il : PyVal → String}
    {lg : String} {pid : Int} {mt : Option (String ⊕ Int)} {tsAt : Nat → PyDateTime}
    {s c : St} (hinv : StInv md5 s)
    (h : removeProjectBody md5 il lg pid mt tsAt s = .error c) : c = s := by
  simp only [removeProjectBody] at h
  rcases hp : s.projects.lookup pid with _ | p
  · rw [hp] at h
    injection h with h'
    exact h'.symm
  · rw [hp] at h
    dsimp only at h
    rcases hpm : p.models with memberIds | v
    · rw [hpm] at h
      dsimp only at h
      obtain ⟨_, l0, hl0, hnd0⟩ := hinv.2.2.2.1 _ (al_mem_of_lookup hp)
      rw [hpm] at hl0
      injection hl0 with hl0'
      subst hl0'
      by_cases hcond : ∀ n, mt = some (Sum.inr n) → n ≠ 0 →
          (s.projects.lookup n).isSome = true
      · obtain ⟨s', hloop, hinv', hsome⟩ := rpLoop_ok memberIds 0 s hinv hnd0
          ⟨p, memberIds, hp, hpm, fun x hx => hx⟩ hcond
        rw [hloop] at h
        dsimp only at h
        rcases hqf : s'.projects.lookup pid with _ | qf
        · rw [hqf] at hsome
          simp at hsome
        · rw [hqf] at h
          cases h
      · push_neg at hcond
        obtain ⟨n, hmn, hn0, hnabs⟩ := hcond
        have hnone : s.projects.lookup n = Option.none := by
          rcases hv : s.projects.lookup n with _ | v2
          · rfl
          · rw [hv] at hnabs
            simp at hnabs
        subst hmn
        rcases memberIds with _ | ⟨mid, rest⟩
        · simp only [rpLoop] at h
          rw [hp] at h
          cases h
        · simp only [rpLoop] at h
          rw [if_pos (by simpa [sumTruthy] using hn0)] at h
          have hmove : moveModelBody md5 il lg mid (Sum.inr n) (tsAt 0) s =
              .error s := by
            simp only [moveModelBody]
            rcases hm : s.models.lookup mid with _ | em
            · rfl
            · dsimp only
              rw [hnone]
          rw [hmove] at h
          injection h with h'
          exact h'.symm
    · rw [hpm] at h
      injection h with h'
      exact h'.symm

/-- Every reachable depot state satisfies the full inductive invariant. -/
theorem reach_stinv {md5 : String → Nat} {il : PyVal → String} {lg : String} {s : St}
    (h : Reach md5 il lg s) : StInv md5 s := by
  induction h with
  | empty =>
      refine ⟨List.nodup_nil, List.nodup_nil, ?_, ?_, ?_, ?_⟩
      · intro pr hpr
        cases hpr
      · intro pp hpp
        cases hpp
      · intro pr hpr
        cases hpr
      · intro pp hpp
        cases hpp
  | addP p hp _ ih => exact addProject_stinv ih hp
  | addM nm hm _ ih => exact addModel_stinv ih hm
  | remM mid _ ih => exact removeModel_stinv ih
  | move mid tgt ts _ ih => exact moveModel_stinv ih
  | remP pid mt tsAt hmt _ ih => exact removeProject_stinv ih hmt

theorem filter_key_nil {β : Type} {l : List (Int × β)} {k : Int}
    (h : l.lookup k = Option.none) : l.filter (fun pr => pr.1 == k) = [] := by
  induction l with
  | nil => rfl
  | cons hd tl ih =>
      obtain ⟨a, b⟩ := hd
      by_cases hb : (k == a)
      · simp only [List.lookup, hb] at h
        cases h
      · have hab : ¬((a, b).1 == k) := by
          intro hab
          have hak : a = k := eq_of_beq hab
          subst hak
          exact hb (by simp)
        simp only [List.filter_cons]
        rw [if_neg hab]
        apply ih
        simpa [List.lookup, hb] using h

theorem project_idOf_eq_of_name {md5 : String → Nat} {p q : Project}
    (h : q.project_name = p.project_name) :
    Project.idOf md5 q = Project.idOf md5 p := by
  unfold Project.idOf
  rw [h]

theorem runWrap_eq_error {body : St → Except St St} {s c : St}
    (h : body s = .error c) : runWrap body s = c := by
  unfold runWrap
  rw [h]

theorem runWrap_eq_ok {body : St → Except St St} {s s' : St}
    (h : body s = .ok s') : runWrap body s = s' := by
  unfold runWrap
  rw [h]

theorem addModelBody_exact {md5 : String → Nat} {nm : Model} {s : St}
    {p : Project} {l : List Int}
    (hp : s.projects.lookup (produce_hash md5 (.str nm.project_name)) = some p)
    (hpl : p.models = Sum.inl l)
    (hmid : s.models.lookup (Model.idOf md5 nm) = Option.none)
    (hml : Model.idOf md5 nm ∉ l) :
    addModelBody md5 nm s =
      .ok ⟨s.models ++ [(Model.idOf md5 nm, nm)],
           alSet s.projects (produce_hash md5 (.str nm.project_name))
             { p with models := Sum.inl (l ++ [Model.idOf md5 nm]) }⟩ := by
  simp only [addModelBody]
  rw [hp]
  dsimp only
  rw [if_neg (by rw [hmid]; simp)]
  simp only [Project.addModelId]
  rw [hpl]
  dsimp only
  rw [if_neg hml]

/-- **C1** (amended).  Starting from empty indexes, after any sequence of
`add_model`, `remove_model`, `add_project`, `remove_project` and
`move_model_to_project` calls — where every added model is
constructor-shaped (its Meta does not shadow the Model's own field names),
every added project carries an empty member list, and no `remove_project`
call designates the project being removed as its move target — invariant I4
holds: every stored model's `project_name` hashes to a stored project whose
member list contains the model's id, and every member-list id is a stored
model whose `project_name` hashes back to that project.  (The claim as
frozen, without those provisos, is refuted by `c1_counterexample`.) -/
theorem c1_amended {md5 : String → Nat} {il : PyVal → String} {lg : String} {s : St}
    (h : Reach md5 il lg s) : I4 md5 s :=
  (reach_stinv h).2.2.2.2

/-- Witness for C1: the depot state reached by `add_project("p1")` then
`add_model(wModel1)` satisfies I4. -/
theorem c1_amended_witness : I4 toyMd5 wSt2 :=
  @c1_amended toyMd5 toyIl toyLg wSt2 (Reach.addM wModel1
    ⟨wMetaStored, by decide, by decide, by decide, by decide, by decide⟩
    (Reach.addP wProj1 (by decide) Reach.empty))


/-- **C1** counterexample to the claim as stated: `add_project("p1")`,
`add_model(wModel1)` and `remove_project("p1", move_to_new_project="p1")`
each run without raising (the first two bodies return `.ok`, and the third
body returns `.ok`: the inner move commits a re-homed copy of the model
under `"p1"` and the loop ends with the project deleted), yet I4 fails in
the final state: the moved model remains in the model index while the
project index is empty. -/
theorem c1_counterexample :
    exOk (addProjectBody toyMd5 wProj1 stEmpty) = true ∧
    exOk (addModelBody toyMd5 wModel1 wSt1) = true ∧
    exOk (removeProjectBody toyMd5 toyIl toyLg (Project.idOf toyMd5 wProj1)
      (some (Sum.inl "p1")) wTsAt wSt2) = true ∧
    ¬ I4 toyMd5 (removeProject toyMd5 toyIl toyLg (Project.idOf toyMd5 wProj1)
      (some (Sum.inl "p1")) wTsAt wSt2) := by
  refine ⟨by decide, by decide, by decide, ?_⟩
  intro h
  obtain ⟨hE, _⟩ := h
  rcases hm : (removeProject toyMd5 toyIl toyLg (Project.idOf toyMd5 wProj1)
      (some (Sum.inl "p1")) wTsAt wSt2).models with _ | ⟨pr, rest⟩
  · exact absurd hm (by decide)
  · have hpr : pr ∈ (removeProject toyMd5 toyIl toyLg (Project.idOf toyMd5 wProj1)
        (some (Sum.inl "p1")) wTsAt wSt2).models := by
      rw [hm]
      exact List.mem_cons_self _ _
    obtain ⟨p, l, hp, _, _⟩ := hE pr hpr
    have hproj : (removeProject toyMd5 toyIl toyLg (Project.idOf toyMd5 wProj1)
        (some (Sum.inl "p1")) wTsAt wSt2).projects = [] := by decide
    rw [hproj] at hp
    cases hp

/-- **C2**.  Every wrapped mutating `Depot` operation is a total function
(`runWrap` swallows the raised error, so nothing reaches the caller), and in
a well-formed state, whenever the operation body raises, the wrapper rolls
the indexes back to exactly the state at the call — both indexes unchanged.
In particular a second `add_project` under an already-present name does
nothing and leaves exactly one entry under that name's key. -/
theorem c2_rollback (md5 : String → Nat) (il : PyVal → String) (lg : String)
    (s : St) (hinv : StInv md5 s) :
    (∀ nm c, addModelBody md5 nm s = .error c → addModel md5 nm s = s) ∧
    (∀ mid c, removeModelBody md5 mid s = .error c → removeModel md5 mid s = s) ∧
    (∀ p c, addProjectBody md5 p s = .error c → addProject md5 p s = s) ∧
    (∀ id attr v c, updateObjectAttrBody id attr v s = .error c →
      updateObjectAttr id attr v s = s) ∧
    (∀ pid mt tsAt c, removeProjectBody md5 il lg pid mt tsAt s = .error c →
      removeProject md5 il lg pid mt tsAt s = s) ∧
    (∀ p q : Project, q.project_name = p.project_name →
      s.projects.lookup (Project.idOf md5 p) = Option.none →
      addProject md5 q (addProject md5 p s) = addProject md5 p s ∧
      ((addProject md5 p s).projects.filter
        (fun pr => pr.1 == Project.idOf md5 p)).length = 1) := by
  refine ⟨?_, ?_, ?_, ?_, ?_, ?_⟩
  · intro nm c h
    unfold addModel runWrap
    rw [h, addModelBody_error h]
  · intro mid c h
    unfold removeModel runWrap
    rw [h, removeModelBody_error h]
  · intro p c h
    unfold addProject runWrap
    rw [h, addProjectBody_error h]
  · intro id attr v c h
    unfold updateObjectAttr runWrap
    rw [h, updateObjectAttrBody_error h]
  · intro pid mt tsAt c h
    unfold removeProject runWrap
    rw [h, removeProjectBody_error_of_inv hinv h]
  · intro p q hname hnone
    rcases addProjectBody_spec md5 p s with ⟨hsome, _⟩ | ⟨_, hok⟩
    · rw [hnone] at hsome
      cases hsome
    · have hstate : addProject md5 p s =
          ⟨s.models, s.projects ++ [(Project.idOf md5 p, p)]⟩ := by
        unfold addProject runWrap
        rw [hok]
      have hlook : (addProject md5 p s).projects.lookup (Project.idOf md5 q) =
          some p := by
        rw [hstate]
        dsimp only
        rw [project_idOf_eq_of_name hname, al_lookup_append, hnone]
        simp [List.lookup]
      constructor
      · rcases addProjectBody_spec md5 q (addProject md5 p s) with ⟨_, herr⟩ |
          ⟨hnone2, _⟩
        · exact runWrap_eq_error herr
        · rw [hlook] at hnone2
          cases hnone2
      · rw [hstate]
        dsimp only
        rw [List.filter_append, filter_key_nil hnone]
        simp [List.filter]

/-- Witness for C2: with `"p1"` already stored, a second `add_project` of a
same-named project is a no-op and the index keeps exactly one entry for the
name's key. -/
theorem c2_rollback_witness :
    addProject toyMd5 wProj1 (addProject toyMd5 wProj1 stEmpty) =
        addProject toyMd5 wProj1 stEmpty ∧
    ((addProject toyMd5 wProj1 stEmpty).projects.filter
      (fun pr => pr.1 == Project.idOf toyMd5 wProj1)).length = 1 :=
  (c2_rollback toyMd5 toyIl toyLg stEmpty
    (@reach_stinv toyMd5 toyIl toyLg stEmpty
      (@Reach.empty toyMd5 toyIl toyLg))).2.2.2.2.2 wProj1 wProj1 rfl (by decide)

/-- **C5** counterexample to the claim as stated: with `wModel1` already
stored, `add_model(wModel1)` fails silently, yet afterwards the model index
STILL contains `wModel1.id` — contradicting "in that case the model index
afterwards does not contain m.id". -/
theorem c5_counterexample :
    exOk (addModelBody toyMd5 wModel1 wSt2) = false ∧
    (addModel toyMd5 wModel1 wSt2).models.lookup (Model.idOf toyMd5 wModel1) =
      some wModel1 := ⟨by decide, by decide⟩

/-- **C5** (amended).  In a well-formed state, `add_model(m)` fails
(silently) precisely when the hash of `m`'s `project_name` is not a key of
the project index or `m.id` is already a key of the model index; on failure
both indexes are unchanged (so in the missing-project case, where `m.id` was
not a key before, it still is not); otherwise it inserts `m` under `m.id`
and appends `m.id` to the owning project's member list. -/
theorem c5_amended (md5 : String → Nat) (nm : Model) (s : St)
    (hinv : StInv md5 s) :
    ((exOk (addModelBody md5 nm s) = false) ↔
      (s.projects.lookup (produce_hash md5 (.str nm.project_name)) = Option.none ∨
        (s.models.lookup (Model.idOf md5 nm)).isSome = true)) ∧
    (exOk (addModelBody md5 nm s) = false → addModel md5 nm s = s) ∧
    (exOk (addModelBody md5 nm s) = true →
      ∃ p l, s.projects.lookup (produce_hash md5 (.str nm.project_name)) = some p ∧
        p.models = Sum.inl l ∧
        addModel md5 nm s =
          ⟨s.models ++ [(Model.idOf md5 nm, nm)],
           alSet s.projects (produce_hash md5 (.str nm.project_name))
             { p with models := Sum.inl (l ++ [Model.idOf md5 nm]) }⟩) := by
  have hsucc : ∀ p, s.projects.lookup (produce_hash md5 (.str nm.project_name)) = some p →
      s.models.lookup (Model.idOf md5 nm) = Option.none →
      ∃ l, p.models = Sum.inl l ∧
        addModelBody md5 nm s =
          .ok ⟨s.models ++ [(Model.idOf md5 nm, nm)],
               alSet s.projects (produce_hash md5 (.str nm.project_name))
                 { p with models := Sum.inl (l ++ [Model.idOf md5 nm]) }⟩ := by
    intro p hp hmid
    obtain ⟨_, l, hpl, _⟩ := hinv.2.2.2.1 _ (al_mem_of_lookup hp)
    have hml : Model.idOf md5 nm ∉ l := by
      intro hmem
      obtain ⟨mx, hmx, _⟩ := hinv.2.2.2.2.2 _ (al_mem_of_lookup hp) l hpl _ hmem
      rw [hmid] at hmx
      cases hmx
    exact ⟨l, hpl, addModelBody_exact hp hpl hmid hml⟩
  refine ⟨⟨?_, ?_⟩, ?_, ?_⟩
  · intro hfail
    by_contra hcon
    push_neg at hcon
    obtain ⟨hp', hmid'⟩ := hcon
    rcases hp : s.projects.lookup (produce_hash md5 (.str nm.project_name)) with _ | p
    · exact hp' hp
    · have hmid : s.models.lookup (Model.idOf md5 nm) = Option.none := by
        rcases hv : s.models.lookup (Model.idOf md5 nm) with _ | v
        · rfl
        · rw [hv] at hmid'
          simp at hmid'
      obtain ⟨l, _, hok⟩ := hsucc p hp hmid
      rw [hok] at hfail
      cases hfail
  · intro hcase
    rcases hb : addModelBody md5 nm s with c | s'
    · rfl
    · rcases hcase with hnone | hsome
      · simp only [addModelBody] at hb
        rw [hnone] at hb
        cases hb
      · simp only [addModelBody] at hb
        rcases hp : s.projects.lookup (produce_hash md5 (.str nm.project_name)) with _ | p
        · rw [hp] at hb
          cases hb
        · rw [hp] at hb
          dsimp only at hb
          rw [if_pos hsome] at hb
          cases hb
  · intro hfail
    rcases hb : addModelBody md5 nm s with c | s'
    · unfold addModel runWrap
      rw [hb, addModelBody_error hb]
    · rw [hb] at hfail
      cases hfail
  · intro hok
    rcases hb : addModelBody md5 nm s with c | s'
    · rw [hb] at hok
      cases hok
    · obtain ⟨p, l, hp, hpl, hmid, hml, hok2⟩ :
          ∃ p l, _ := by
        rcases addModelBody_spec md5 nm s with he | hsp
        · rw [he] at hb
          cases hb
        · exact hsp
      refine ⟨p, l, hp, hpl, ?_⟩
      unfold addModel runWrap
      rw [hok2]

/-- Witness for C5: in the state holding only project `"p1"`, adding
`wModel1` does not fail (neither failure condition holds). -/
theorem c5_amended_witness :
    (exOk (addModelBody toyMd5 wModel1 wSt1) = false) ↔
      (wSt1.projects.lookup (produce_hash toyMd5 (.str wModel1.project_name)) =
          Option.none ∨
        (wSt1.models.lookup (Model.idOf toyMd5 wModel1)).isSome = true) :=
  (c5_amended toyMd5 wModel1 wSt1
    (@reach_stinv toyMd5 toyIl toyLg wSt1
      (Reach.addP wProj1 (by decide) (@Reach.empty toyMd5 toyIl toyLg)))).1

/-- **C6**.  Moving a stored model to a pre-existing target project distinct
from its current one constructs a new `Model` with the same payload and meta
record but the target project name and the fresh timestamp — hence, the new
identity being fresh, an identity different from the old one — and
afterwards the model index lacks the old identity and holds the new one, the
target's member list contains the new identity, and the source's member list
no longer contains the old identity. -/
theorem c6_move (md5 : String → Nat) (il : PyVal → String) (lg : String)
    {s : St} {mid : Int} {m : Model} {mm : ModelMeta} (tname : String)
    (ts : PyDateTime) (hinv : StInv md5 s)
    (hm : s.models.lookup mid = some m)
    (hmd : m.meta_data = Sum.inl mm)
    (hp2 : (s.projects.lookup (produce_hash md5 (.str tname))).isSome = true)
    (hne : produce_hash md5 (.str tname) ≠ produce_hash md5 (.str m.project_name))
    (hfresh : s.models.lookup
      (Model.idOf md5 (Model.make il lg m.model_object tname mm ts)) =
        Option.none) :
    (Model.make il lg m.model_object tname mm ts).model_object = m.model_object ∧
    (Model.make il lg m.model_object tname mm ts).project_name = tname ∧
    (Model.make il lg m.model_object tname mm ts).timestamp = ts ∧
    Model.idOf md5 (Model.make il lg m.model_object tname mm ts) ≠ mid ∧
    (moveModel md5 il lg mid (Sum.inl tname) ts s).models.lookup mid =
      Option.none ∧
    (moveModel md5 il lg mid (Sum.inl tname) ts s).models.lookup
        (Model.idOf md5 (Model.make il lg m.model_object tname mm ts)) =
      some (Model.make il lg m.model_object tname mm ts) ∧
    (∃ p2' l2, (moveModel md5 il lg mid (Sum.inl tname) ts s).projects.lookup
          (produce_hash md5 (.str tname)) = some p2' ∧
        p2'.models = Sum.inl l2 ∧
        Model.idOf md5 (Model.make il lg m.model_object tname mm ts) ∈ l2) ∧
    (∃ p1' l1, (moveModel md5 il lg mid (Sum.inl tname) ts s).projects.lookup
          (produce_hash md5 (.str m.project_name)) = some p1' ∧
        p1'.models = Sum.inl l1 ∧ mid ∉ l1) := by
  have hmok : MetaOK m := (hinv.2.2.1 _ (al_mem_of_lookup hm)).2
  obtain ⟨mm0, hmd0, e1, e2, e3, e4⟩ := hmok
  have hmmeq : mm = mm0 := by
    rw [hmd] at hmd0
    injection hmd0
  subst hmmeq
  -- the source project entry
  obtain ⟨p1, l1, hp1, hl1, hin1⟩ := hinv.2.2.2.2.1 _ (al_mem_of_lookup hm)
  dsimp only at hp1 hin1
  obtain ⟨_, l1', hl1', hnd1⟩ := hinv.2.2.2.1 _ (al_mem_of_lookup hp1)
  rw [hl1] at hl1'
  injection hl1' with hl1''
  subst hl1''
  -- the target project entry
  rcases hp2' : s.projects.lookup (produce_hash md5 (.str tname)) with _ | p2
  · rw [hp2'] at hp2
    simp at hp2
  obtain ⟨_, l2, hl2, _⟩ := hinv.2.2.2.1 _ (al_mem_of_lookup hp2')
  -- fix notation
  set newM := Model.make il lg m.model_object tname mm ts with hnewM
  set nid := Model.idOf md5 newM with hnid
  have hname : newM.project_name = tname := make_project_name il lg _ _ _ _
  have hkey2 : produce_hash md5 (.str newM.project_name) =
      produce_hash md5 (.str tname) := by rw [hname]
  have hnidmid : nid ≠ mid := by
    intro he
    rw [he, hm] at hfresh
    cases hfresh
  -- the new identity is absent from the target's member list
  have hnl2 : nid ∉ l2 := by
    intro hmem
    obtain ⟨mx, hmx, _⟩ := hinv.2.2.2.2.2 _ (al_mem_of_lookup hp2') l2 hl2 _ hmem
    rw [hfresh] at hmx
    cases hmx
  -- the first wrapped sub-operation: add of the new model succeeds
  have hadd : addModel md5 newM s =
      ⟨s.models ++ [(nid, newM)],
       alSet s.projects (produce_hash md5 (.str newM.project_name))
         { p2 with models := Sum.inl (l2 ++ [nid]) }⟩ := by
    refine addModel_exact ?_ hl2 hfresh hnl2
    rw [hkey2]
    exact hp2'
  have hinv1 : StInv md5 (addModel md5 newM s) :=
    addModel_stinv hinv (make_MetaOK il lg _ _ _ _ e1 e2 e3 e4)
  -- the source project entry survives the add untouched
  have hp1' : (addModel md5 newM s).projects.lookup
      (produce_hash md5 (.str m.project_name)) = some p1 := by
    rw [addModel_lookup_projects_ne (by rw [hkey2]; exact hne.symm)]
    exact hp1
  -- the second wrapped sub-operation: removal of the old model
  obtain ⟨m', hm', _, hrem⟩ := removeModel_exact hinv1 hp1' hl1 hin1
  have hbody : moveModelBody md5 il lg mid (Sum.inl tname) ts s =
      .ok (removeModel md5 mid (addModel md5 newM s)) := by
    simp only [moveModelBody]
    rw [hm]
    exact moveResolved_ok hmd ⟨mm, hmd, e1, e2, e3, e4⟩
  have hmove : moveModel md5 il lg mid (Sum.inl tname) ts s =
      removeModel md5 mid (addModel md5 newM s) := runWrap_eq_ok hbody
  rw [hmove, hrem, hadd]
  dsimp only
  refine ⟨make_model_object il lg _ _ _ _, hname, make_timestamp il lg _ _ _ _,
    hnidmid, ?_, ?_, ?_, ?_⟩
  · exact alErase_lookup_self _ _
  · rw [alErase_lookup_ne _ hnidmid, al_lookup_append, hfresh]
    simp [List.lookup]
  · have hlk : (alSet s.projects (produce_hash md5 (.str newM.project_name))
        { p2 with models := Sum.inl (l2 ++ [nid]) }).lookup
          (produce_hash md5 (.str tname)) =
        some { p2 with models := Sum.inl (l2 ++ [nid]) } := by
      rw [hkey2, alSet_lookup_self, hp2']
      rfl
    refine ⟨{ p2 with models := Sum.inl (l2 ++ [nid]) }, l2 ++ [nid], ?_, rfl,
      List.mem_append_right _ (by simp)⟩
    rw [alSet_lookup_ne _ hne]
    exact hlk
  · refine ⟨{ p1 with models := Sum.inl (l1.erase mid) }, l1.erase mid, ?_, rfl,
      hnd1.not_mem_erase⟩
    rw [alSet_lookup_self, alSet_lookup_ne _ (by rw [hkey2]; exact hne.symm), hp1]
    rfl

/-- Witness for C6: moving `wModel1` from `"p1"` to the pre-existing `"p2"`
yields a fresh identity and drops the old one from the model index. -/
theorem c6_move_witness :
    Model.idOf toyMd5
        (Model.make toyIl toyLg wModel1.model_object "p2" wMetaStored wTs2) ≠
      Model.idOf toyMd5 wModel1 ∧
    (moveModel toyMd5 toyIl toyLg (Model.idOf toyMd5 wModel1) (Sum.inl "p2")
        wTs2 wSt3).models.lookup (Model.idOf toyMd5 wModel1) = Option.none := by
  have h := @c6_move toyMd5 toyIl toyLg wSt3 (Model.idOf toyMd5 wModel1) wModel1
    wMetaStored "p2" wTs2
    (@reach_stinv toyMd5 toyIl toyLg wSt3
      (Reach.addP wProj2 (by decide)
        (Reach.addM wModel1
          ⟨wMetaStored, by decide, by decide, by decide, by decide, by decide⟩
          (Reach.addP wProj1 (by decide) (@Reach.empty toyMd5 toyIl toyLg)))))
    (by decide) (by decide) (by decide) (by decide) (by decide)
  exact ⟨h.2.2.2.1, h.2.2.2.2.1⟩

/-- **C10**.  Moving a stored model to a target project name that is not in
the project index silently loses the model: the call returns normally
(`.ok`, no exception reaches the caller, because the inner `add_model`
failure is swallowed by `safe_transaction` while the subsequent
`remove_model` commits), and afterwards the model index no longer holds the
old identity, its project's member list no longer lists it, and nothing was
inserted anywhere. -/
theorem c10_silent_loss (md5 : String → Nat) (il : PyVal → String) (lg : String)
    {s : St} {mid : Int} {m : Model} (tname : String) (ts : PyDateTime)
    (hinv : StInv md5 s) (hm : s.models.lookup mid = some m)
    (hmissing : s.projects.lookup (produce_hash md5 (.str tname)) = Option.none) :
    ∃ p1 l1, s.projects.lookup (produce_hash md5 (.str m.project_name)) = some p1 ∧
      p1.models = Sum.inl l1 ∧ mid ∈ l1 ∧
      moveModelBody md5 il lg mid (Sum.inl tname) ts s =
        .ok ⟨alErase s.models mid,
             alSet s.projects (produce_hash md5 (.str m.project_name))
               { p1 with models := Sum.inl (l1.erase mid) }⟩ := by
  have hmok : MetaOK m := (hinv.2.2.1 _ (al_mem_of_lookup hm)).2
  obtain ⟨mm0, hmd0, e1, e2, e3, e4⟩ := hmok
  obtain ⟨p1, l1, hp1, hl1, hin1⟩ := hinv.2.2.2.2.1 _ (al_mem_of_lookup hm)
  dsimp only at hp1 hin1
  have haddfail : addModel md5 (Model.make il lg m.model_object tname mm0 ts) s = s := by
    refine runWrap_eq_error ?_
    simp only [addModelBody]
    have hk : produce_hash md5
        (.str (Model.make il lg m.model_object tname mm0 ts).project_name) =
        produce_hash md5 (.str tname) := by rw [make_project_name]
    rw [hk, hmissing]
  obtain ⟨m', hm', _, hrem⟩ := removeModel_exact hinv hp1 hl1 hin1
  have hbody : moveModelBody md5 il lg mid (Sum.inl tname) ts s =
      .ok (removeModel md5 mid
        (addModel md5 (Model.make il lg m.model_object tname mm0 ts) s)) := by
    simp only [moveModelBody]
    rw [hm]
    exact moveResolved_ok hmd0 ⟨mm0, hmd0, e1, e2, e3, e4⟩
  rw [haddfail, hrem] at hbody
  exact ⟨p1, l1, hp1, hl1, hin1, hbody⟩

/-- Witness for C10: moving `wModel1` to the nonexistent `"p3"` silently
drops it from the depot without raising. -/
theorem c10_silent_loss_witness :
    ∃ p1 l1, wSt2.projects.lookup
        (produce_hash toyMd5 (.str wModel1.project_name)) = some p1 ∧
      p1.models = Sum.inl l1 ∧ Model.idOf toyMd5 wModel1 ∈ l1 ∧
      moveModelBody toyMd5 toyIl toyLg (Model.idOf toyMd5 wModel1)
          (Sum.inl "p3") wTs2 wSt2 =
        .ok ⟨alErase wSt2.models (Model.idOf toyMd5 wModel1),
             alSet wSt2.projects (produce_hash toyMd5 (.str wModel1.project_name))
               { p1 with models := Sum.inl (l1.erase (Model.idOf toyMd5 wModel1)) }⟩ :=
  @c10_silent_loss toyMd5 toyIl toyLg wSt2 (Model.idOf toyMd5 wModel1) wModel1
    "p3" wTs2
    (@reach_stinv toyMd5 toyIl toyLg wSt2
      (Reach.addM wModel1
        ⟨wMetaStored, by decide, by decide, by decide, by decide, by decide⟩
        (Reach.addP wProj1 (by decide) (@Reach.empty toyMd5 toyIl toyLg))))
    (by decide) (by decide)

/-- **C7**.  `produce_hash` is deterministic — equal inputs give equal
outputs for every digest function (a pure function of the canonical
serialization, hence stable across calls and process instances) — and its
result is exactly the two's-complement signed 32-bit truncation of the MD5
digest value: congruent to the digest modulo `2^32` and lying in
`[-2^31, 2^31)` (so a reinterpretation of the low 32 bits, not a reduction
into the non-negative range).  The canonical serialization passes strings
and numbers through, renders timestamps as ISO-8601 strings with
microsecond precision, serializes tuples element-wise recursively, and maps
any other kind to its size indicator. -/
theorem c7_hash (md5 : String → Nat) (v : PyVal) :
    produce_hash md5 v = produce_hash md5 v ∧
    produce_hash md5 v % (2 ^ 32 : Int) =
      (md5 (jsonSerialize (wrapTuple v)) : Int) % (2 ^ 32 : Int) ∧
    -(2 ^ 31) ≤ produce_hash md5 v ∧ produce_hash md5 v < 2 ^ 31 ∧
    (∀ s : String, jsonSerialize (.str s) = jsonQuote s) ∧
    (∀ n : Int, jsonSerialize (.int n) = toString n) ∧
    (∀ d : PyDateTime, jsonSerialize (.ts d) = jsonQuote (isoMicro d)) ∧
    (∀ x xs, jsonSerialize (.tuple (.cons x xs)) =
      "[" ++ jsonSerializeItems (.cons x xs) ++ "]") ∧
    (∀ n : Nat, jsonSerialize (.obj n) = toString n) := by
  refine ⟨rfl, ?_, ?_, ?_, fun _ => rfl, fun _ => rfl, fun _ => rfl,
    fun _ _ => rfl, fun _ => rfl⟩ <;>
    · unfold produce_hash cInt32Val
      have hlt : md5 (jsonSerialize (wrapTuple v)) % 2 ^ 32 < 2 ^ 32 :=
        Nat.mod_lt _ (by norm_num)
      have hmod : (((md5 (jsonSerialize (wrapTuple v)) % 2 ^ 32 : Nat)) : Int) =
          (md5 (jsonSerialize (wrapTuple v)) : Int) % (2 ^ 32 : Int) := by
        push_cast
        rfl
      by_cases hc : md5 (jsonSerialize (wrapTuple v)) % 2 ^ 32 < 2 ^ 31
      · rw [if_pos hc]
        omega
      · rw [if_neg hc]
        omega

/-- `__setitem__` on a `Model` whose resolution lands on the model itself
(the meta record lacks the key) raises `ImmutableField` for every static
field. -/
theorem model_setField_static_error {m : Model} {k : String} (v : PyVal)
    (hdel : ∀ mm, m.delegate? = some mm → mm.attrs.lookup k = Option.none)
    (hk : k ∈ modelStaticFields) : m.setField k v = .error () := by
  have hself : m.setSelfField k v = .error () := by
    rcases (by simpa [modelStaticFields] using hk :
        k = "timestamp" ∨ k = "project_name" ∨ k = "model_object") with rfl | rfl | rfl <;>
      simp [Model.setSelfField]
  unfold Model.setField
  rcases hd : m.delegate? with _ | mm
  · exact hself
  · dsimp only
    rw [hdel mm hd]
    exact hself

/-- `__setitem__` on a `Project` raises `ImmutableField` for its static
field. -/
theorem project_setField_static_error (p : Project) {k : String} (v : PyVal)
    (hk : k ∈ projectStaticFields) : p.setField k v = .error () := by
  rcases (by simpa [projectStaticFields] using hk : k = "project_name") with rfl
  simp [Project.setField]

/-- **C8**.  For both record kinds, assigning to a field that its resolved
owner declares static always fails with the immutable-field error (the
`Except` carries no updated record, so the field is unchanged), and at the
`Depot` level `update_object_attr` on such a field leaves the state
untouched. -/
theorem c8_immutable :
    (∀ (m : Model) (k : String) (v : PyVal),
      (∀ mm, m.delegate? = some mm → mm.attrs.lookup k = Option.none) →
      k ∈ modelStaticFields → m.setField k v = .error ()) ∧
    (∀ (p : Project) (k : String) (v : PyVal), k ∈ projectStaticFields →
      p.setField k v = .error ()) ∧
    (∀ (s : St) (id : Int) (m : Model) (k : String) (v : PyVal),
      s.models.lookup id = some m →
      (∀ mm, m.delegate? = some mm → mm.attrs.lookup k = Option.none) →
      k ∈ modelStaticFields → updateObjectAttr id k v s = s) ∧
    (∀ (s : St) (id : Int) (p : Project) (k : String) (v : PyVal),
      s.models.lookup id = Option.none → s.projects.lookup id = some p →
      k ∈ projectStaticFields → updateObjectAttr id k v s = s) := by
  refine ⟨fun m k v hdel hk => model_setField_static_error v hdel hk,
    fun p k v hk => project_setField_static_error p v hk, ?_, ?_⟩
  · intro s id m k v hm hdel hk
    refine runWrap_eq_error ?_
    simp only [updateObjectAttrBody]
    rw [hm]
    dsimp only
    rw [model_setField_static_error v hdel hk]
  · intro s id p k v hm hp hk
    refine runWrap_eq_error ?_
    simp only [updateObjectAttrBody]
    rw [hm]
    dsimp only
    rw [hp]
    dsimp only
    rw [project_setField_static_error p v hk]

/-- Witness for C8: the concrete stored model rejects a `timestamp`
re-assignment and the concrete depot state is unchanged by the attempted
update. -/
theorem c8_immutable_witness :
    wModel1.setField "timestamp" (.ts wTs2) = .error () ∧
    updateObjectAttr (Model.idOf toyMd5 wModel1) "timestamp" (.ts wTs2) wSt2 =
      wSt2 :=
  ⟨c8_immutable.1 wModel1 "timestamp" (.ts wTs2)
    (fun mm hmm => by
      have h2 : wModel1.delegate? = some wMetaStored := by decide
      rw [h2] at hmm
      injection hmm with he
      subst he
      decide) (by decide),
   c8_immutable.2.2.1 wSt2 (Model.idOf toyMd5 wModel1) wModel1 "timestamp"
    (.ts wTs2) (by decide)
    (fun mm hmm => by
      have h2 : wModel1.delegate? = some wMetaStored := by decide
      rw [h2] at hmm
      injection hmm with he
      subst he
      decide) (by decide)⟩

/-- **C4** counterexample to the claim as stated: `wShadowModel`'s meta was
constructed from a dict carrying a `creator` key, so the `Model` itself and
its Meta both have a `creator` field; `get("creator")` returns the META's
value (which `__post_init__`'s `update_field("creator", login)` also landed
on), not the Model's own `creator`, which still holds the dataclass default
`"Unknown"` — resolution is embedded-Meta-first, not Model-first. -/
theorem c4_counterexample :
    wShadowModel.getField? "creator" = some (.py (.str "bob")) ∧
    wShadowModel.creator = .str "Unknown" ∧
    PyVal.str "bob" ≠ PyVal.str "Unknown" :=
  ⟨by decide, by decide, by decide⟩

/-- **C4** (amended).  Field lookup on a `Model` resolves the key against
the embedded Meta record FIRST (`_filter_data_object` chains the embedded
`DataObject`s before `self`), and falls through to the Model itself only
when the Meta lacks the key (or when no Meta delegate remains); the lookup
fails with the no-such-field error exactly when neither the Meta nor the
Model has the key.  In particular, when both carry a field named `k`,
`get(k)` returns the META's value. -/
theorem c4_amended (m : Model) (k : String) :
    (∀ mm, m.delegate? = some mm →
      ((∀ v, mm.attrs.lookup k = some v → m.getField? k = some (.py v)) ∧
       (mm.attrs.lookup k = Option.none → m.getField? k = m.selfField? k))) ∧
    (m.delegate? = Option.none → m.getField? k = m.selfField? k) ∧
    (m.getField? k = Option.none ↔
      ((∀ mm, m.delegate? = some mm → mm.attrs.lookup k = Option.none) ∧
        m.selfField? k = Option.none)) := by
  refine ⟨?_, ?_, ?_⟩
  · intro mm hmm
    constructor
    · intro v hv
      unfold Model.getField?
      rw [hmm]
      dsimp only
      rw [hv]
    · intro hnone
      unfold Model.getField?
      rw [hmm]
      dsimp only
      rw [hnone]
  · intro hnone
    unfold Model.getField?
    rw [hnone]
  · unfold Model.getField?
    rcases hd : m.delegate? with _ | mm
    · constructor
      · intro h
        exact ⟨fun mm hmm => (nomatch hmm), h⟩
      · intro h
        exact h.2
    · dsimp only
      rcases hv : mm.attrs.lookup k with _ | v
      · dsimp only
        constructor
        · intro h
          refine ⟨fun mm2 hmm2 => ?_, h⟩
          injection hmm2 with he
          subst he
          exact hv
        · intro h
          exact h.2
      · dsimp only
        constructor
        · intro h
          cases h
        · intro h
          rw [h.1 mm rfl] at hv
          cases hv

/-- Witness for C4: on the ordinary model `wModel1`, `learning_type` (a
Meta-only field) resolves through the Meta record. -/
theorem c4_amended_witness :
    wModel1.getField? "learning_type" = some (.py (.str "supervised")) :=
  ((c4_amended wModel1 "learning_type").1 wMetaStored (by decide)).1
    (.str "supervised") (by decide)

/-! ## Regex split analysis (C9) -/

theorem list_takeWhile_append_all {α : Type} (p : α → Bool) (l1 l2 : List α)
    (h : ∀ a ∈ l1, p a = true) :
    (l1 ++ l2).takeWhile p = l1 ++ l2.takeWhile p := by
  induction l1 with
  | nil => rfl
  | cons a t ih =>
    have ha : p a = true := h a (List.mem_cons_self a t)
    simp only [List.cons_append, List.takeWhile_cons, ha, if_true]
    rw [ih (fun b hb => h b (List.mem_cons_of_mem a hb))]

theorem list_dropWhile_append_all {α : Type} (p : α → Bool) (l1 l2 : List α)
    (h : ∀ a ∈ l1, p a = true) :
    (l1 ++ l2).dropWhile p = l2.dropWhile p := by
  induction l1 with
  | nil => rfl
  | cons a t ih =>
    have ha : p a = true := h a (List.mem_cons_self a t)
    simp only [List.cons_append, List.dropWhile_cons, ha, if_true]
    exact ih (fun b hb => h b (List.mem_cons_of_mem a hb))

theorem list_takeWhile_head_false {α : Type} (p : α → Bool) (l : List α)
    (h : ∀ c, l.head? = some c → p c = false) : l.takeWhile p = [] := by
  cases l with
  | nil => rfl
  | cons a t => simp [List.takeWhile_cons, h a rfl]

theorem list_dropWhile_head_false {α : Type} (p : α → Bool) (l : List α)
    (h : ∀ c, l.head? = some c → p c = false) : l.dropWhile p = l := by
  cases l with
  | nil => rfl
  | cons a t => simp [List.dropWhile_cons, h a rfl]

theorem list_takeWhile_all {α : Type} (p : α → Bool) (l : List α)
    (h : ∀ a ∈ l, p a = true) : l.takeWhile p = l := by
  induction l with
  | nil => rfl
  | cons a t ih =>
    have ha : p a = true := h a (List.mem_cons_self a t)
    simp only [List.takeWhile_cons, ha, if_true]
    rw [ih (fun b hb => h b (List.mem_cons_of_mem a hb))]

/-- What the embedded regex match computes on a well-formed expression: a
nonempty leading run of operator characters followed by a value text whose
first character is not an operator character and which holds no newline.
The `cmp` group is exactly the operator run; the value group is the value
text minus one leading single quote (a trailing quote is NOT removed). -/
theorem regexSplit_spec (s : String) (opcs valcs : List Char)
    (hs : s.data = opcs ++ valcs)
    (hne : opcs ≠ [])
    (hopc : ∀ c ∈ opcs, c = '<' ∨ c = '>' ∨ c = '=')
    (h1 : valcs.head? ≠ some '<') (h2 : valcs.head? ≠ some '>')
    (h3 : valcs.head? ≠ some '=')
    (hnl : '\n' ∉ valcs) :
    regexSplit s = some (String.mk opcs,
      String.mk (if valcs.head? = some squote then valcs.tail else valcs)) := by
  have hop_true : ∀ c ∈ opcs,
      (fun c => decide (c = '<' ∨ c = '>' ∨ c = '=')) c = true := by
    intro c hc
    simpa using hopc c hc
  have hval_false : ∀ c, valcs.head? = some c →
      (fun c => decide (c = '<' ∨ c = '>' ∨ c = '=')) c = false := by
    intro c hc
    simp only [decide_eq_false_iff_not]
    rintro (rfl | rfl | rfl)
    · exact h1 hc
    · exact h2 hc
    · exact h3 hc
  have hl : s.toList = opcs ++ valcs := hs
  obtain ⟨c0, t0, rfl⟩ : ∃ c0 t0, opcs = c0 :: t0 := by
    cases opcs with
    | nil => exact absurd rfl hne
    | cons c0 t0 => exact ⟨c0, t0, rfl⟩
  unfold regexSplit
  rw [hl, List.cons_append, List.dropWhile_cons,
    if_neg (by rcases hopc c0 (List.mem_cons_self c0 t0) with rfl | rfl | rfl <;> decide)]
  dsimp only
  rw [← List.cons_append,
    list_takeWhile_append_all _ (c0 :: t0) valcs hop_true,
    list_dropWhile_append_all _ (c0 :: t0) valcs hop_true,
    list_takeWhile_head_false _ valcs hval_false,
    list_dropWhile_head_false _ valcs hval_false,
    List.append_nil]
  have hkeep : ∀ l : List Char, '\n' ∉ l →
      l.takeWhile (fun c => decide (c ≠ '\n')) = l := by
    intro l hle
    refine list_takeWhile_all _ l ?_
    intro a ha
    simp only [decide_eq_true_eq]
    intro heq
    exact hle (heq ▸ ha)
  cases hvc : valcs with
  | nil =>
    rw [if_neg (by simp)]
    rfl
  | cons v tl =>
    dsimp only
    by_cases hq : v = squote
    · subst hq
      rw [if_pos rfl, hkeep tl (fun hmem => hnl (hvc ▸ List.mem_cons_of_mem _ hmem))]
      simp
    · rw [if_neg hq, hkeep (v :: tl) (hvc ▸ hnl)]
      simp [hq]

/-- `resolve_search` on a well-formed expression whose operator run is a
known token: the result pairs the looked-up comparator with
`_resolve_type` of the captured value text. -/
theorem resolveSearchE_split (litParse : String → Option PyVal)
    (dtParse : String → Option PyDateTime) (s : String)
    (opcs valcs : List Char) (op : CmpOp)
    (hs : s.data = opcs ++ valcs) (hne : opcs ≠ [])
    (hopc : ∀ c ∈ opcs, c = '<' ∨ c = '>' ∨ c = '=')
    (h1 : valcs.head? ≠ some '<') (h2 : valcs.head? ≠ some '>')
    (h3 : valcs.head? ≠ some '=')
    (hnl : '\n' ∉ valcs)
    (hop : opLookup (String.mk opcs) = some op) :
    resolveSearchE litParse dtParse s =
      .ok (op, resolveType litParse dtParse
        (String.mk (if valcs.head? = some squote then valcs.tail else valcs))) := by
  unfold resolveSearchE
  rw [regexSplit_spec s opcs valcs hs hne hopc h1 h2 h3 hnl]
  dsimp only
  rw [hop]

/-- **C9** counterexample to the claim as stated: on the documented
quoted form `=='supervised'` the regex consumes the LEADING quote with its
`'?` but the greedy `.*` swallows the TRAILING quote (the final `'?`
matches empty), so the comparison value is the string `supervised'` — not
the unquoted literal `supervised` the claim describes. -/
theorem c9_counterexample :
    resolveSearchE toyLit toyDt c9expr = .ok (CmpOp.eq, .str c9valText) ∧
    resolveSearchE toyLit toyDt c9expr ≠
      .ok (CmpOp.eq, .str "supervised") ∧
    c9valText ≠ "supervised" := by
  refine ⟨rfl, ?_, by decide⟩
  intro h
  rw [show resolveSearchE toyLit toyDt c9expr = .ok (CmpOp.eq, .str c9valText)
    from rfl] at h
  injection h with h
  injection h with h1 h2
  injection h2 with h2
  exact absurd h2 (by decide)

/-- **C9** (amended).  For a search expression made of a known operator
token followed by a value text that does not start with an operator
character and holds no newline, `resolve_search` returns the comparator
paired with `_resolve_type` of the value text minus one LEADING single
quote only (a trailing quote is retained in the value); and
`_resolve_type` tries `literal_eval` first, then `pd.to_datetime`, and
falls back to the raw string when both raise. -/
theorem c9_amended (litParse : String → Option PyVal)
    (dtParse : String → Option PyDateTime) (opStr valStr : String) (op : CmpOp)
    (hops : (opStr, op) ∈ [(">", CmpOp.gt), ("<", CmpOp.lt), (">=", CmpOp.ge),
      ("<=", CmpOp.le), ("==", CmpOp.eq)])
    (h1 : valStr.data.head? ≠ some '<') (h2 : valStr.data.head? ≠ some '>')
    (h3 : valStr.data.head? ≠ some '=')
    (hnl : '\n' ∉ valStr.data) :
    resolveSearchE litParse dtParse (opStr ++ valStr) =
      .ok (op, resolveType litParse dtParse
        (String.mk (if valStr.data.head? = some squote then valStr.data.tail
          else valStr.data))) ∧
    (∀ s v, litParse s = some v → resolveType litParse dtParse s = v) ∧
    (∀ s d, litParse s = Option.none → dtParse s = some d →
      resolveType litParse dtParse s = PyVal.ts d) ∧
    (∀ s, litParse s = Option.none → dtParse s = Option.none →
      resolveType litParse dtParse s = PyVal.str s) := by
  refine ⟨?_, ?_, ?_, ?_⟩
  · simp only [List.mem_cons, List.not_mem_nil, or_false, Prod.mk.injEq] at hops
    rcases hops with ⟨rfl, rfl⟩ | ⟨rfl, rfl⟩ | ⟨rfl, rfl⟩ | ⟨rfl, rfl⟩ | ⟨rfl, rfl⟩
    · exact resolveSearchE_split litParse dtParse _ ['>'] valStr.data CmpOp.gt
        (by rw [String.data_append]) (by decide) (by decide) h1 h2 h3 hnl
        (by decide)
    · exact resolveSearchE_split litParse dtParse _ ['<'] valStr.data CmpOp.lt
        (by rw [String.data_append]) (by decide) (by decide) h1 h2 h3 hnl
        (by decide)
    · exact resolveSearchE_split litParse dtParse _ ['>', '='] valStr.data
        CmpOp.ge (by rw [String.data_append]) (by decide) (by decide) h1 h2 h3
        hnl (by decide)
    · exact resolveSearchE_split litParse dtParse _ ['<', '='] valStr.data
        CmpOp.le (by rw [String.data_append]) (by decide) (by decide) h1 h2 h3
        hnl (by decide)
    · exact resolveSearchE_split litParse dtParse _ ['=', '='] valStr.data
        CmpOp.eq (by rw [String.data_append]) (by decide) (by decide) h1 h2 h3
        hnl (by decide)
  · intro s v hv
    unfold resolveType
    rw [hv]
  · intro s d hl hd
    unfold resolveType
    rw [hl]
    dsimp only
    rw [hd]
  · intro s hl hd
    unfold resolveType
    rw [hl]
    dsimp only
    rw [hd]

/-- Witness for C9: the unquoted expression `==supervised` resolves to the
equality comparator and the raw string. -/
theorem c9_amended_witness :
    resolveSearchE toyLit toyDt ("==" ++ "supervised") =
      .ok (CmpOp.eq, resolveType toyLit toyDt
        (String.mk (if ("supervised" : String).data.head? = some squote
          then ("supervised" : String).data.tail
          else ("supervised" : String).data))) :=
  (c9_amended toyLit toyDt "==" "supervised" CmpOp.eq (by decide) (by decide)
    (by decide) (by decide) (by decide)).1

/-- **C3**.  The project-scoped search path is broken: on a depot whose
project `p1` holds exactly one member model that SATISFIES the supplied
`learning_type` filter (so the specified result is the one pair of that
model's identity and record), `search_models` raises instead — the
candidate generator iterates `get_field("models")`, the list of member
IDs, as if it were a list of records, and `.id` on an `int` raises
`AttributeError`.  The same filter machinery works on the whole-index scan,
isolating the fault to the project branch. -/
theorem c3_search_project_crash :
    (wSt2.projects.lookup (produce_hash toyMd5 (.str "p1"))).map Project.models
      = some (Sum.inl [Model.idOf toyMd5 wModel1]) ∧
    wSt2.models.lookup (Model.idOf toyMd5 wModel1) = some wModel1 ∧
    inspectModel toyLit toyDt wModel1 [("learning_type", "==supervised")] =
      .ok true ∧
    searchModels toyMd5 toyLit toyDt toyDisp false (some (Sum.inl "p1"))
      [("learning_type", "==supervised")] wSt2 = .error () ∧
    searchModels toyMd5 toyLit toyDt toyDisp false Option.none
      [("learning_type", "==supervised")] wSt2 =
      .ok [(Model.idOf toyMd5 wModel1, .raw wModel1)] := by
  refine ⟨by decide, by decide, rfl, rfl, rfl⟩
